import Mathlib

/-!
Verification development for a multi-agent data-analysis system: a
supervisor/worker orchestration graph (`src/nodes.py`, `src/graph.py`),
a conversation-state record (`src/state.py`), an HTTP entry point
(`src/main.py`) and a chart-path display helper (`src/app_ui.py`).
All definitions are shallow embeddings of the corresponding Python
source; the language-model and tool-execution capabilities are external
collaborators and enter as explicit oracle arguments.
-/

namespace MultiAgent

/-! ## String helpers mirroring the Python primitives used by the source -/

/-- Python `str.lower()` restricted to the ASCII range (all characters the
source compares against are ASCII). -/
def pyLower (s : String) : String := String.mk (s.toList.map Char.toLower)

/-- Python's `sub in s` substring test. -/
def pyContains (s sub : String) : Bool :=
  s.toList.tails.any (fun t => sub.toList.isPrefixOf t)

/-- Python `s.endswith(suf)`. -/
def pyEndsWith (s suf : String) : Bool := suf.toList.isSuffixOf s.toList

/-- Python `s.startswith(pre)` (case sensitive). -/
def pyStartsWith (s pre : String) : Bool := pre.toList.isPrefixOf s.toList

/-! ## Data model (`src/state.py`)

`AgentState` is a `TypedDict` with a message list (reduced with the
`add_messages` reducer), the uploaded file names, the active worker tag,
the stored SQL statement and the chart-dispatch flag.  Messages are the
`langchain_core` message objects the source constructs: human, assistant
(`ai`), tool-result and system messages.  Message `content` is either a
plain string or a list of structured parts, each part optionally carrying
a `"text"` entry.  The engine keys messages by an identifier, assigned on
first insertion; we carry it explicitly. -/

inductive MsgRole where
  | human
  | ai
  | tool
  | system
  deriving DecidableEq, Repr

/-- `langchain_core` message `type` tags: `HumanMessage.type = "human"`,
`AIMessage.type = "ai"`, `ToolMessage.type = "tool"`,
`SystemMessage.type = "system"`. -/
def msgType : MsgRole → String
  | .human => "human"
  | .ai => "ai"
  | .tool => "tool"
  | .system => "system"

/-- A tool-call request attached to an assistant message: a capability
name and an argument mapping. -/
structure ToolCall where
  name : String
  args : List (String × String)
  deriving DecidableEq, Repr

/-- Message content: a plain string, or a list of structured parts where
each part may carry a `"text"` entry (`part.get("text", "")`). -/
inductive MsgContent where
  | str (s : String)
  | parts (l : List (Option String))
  deriving DecidableEq, Repr

structure Message where
  id : String
  role : MsgRole
  content : MsgContent
  tool_calls : List ToolCall
  deriving DecidableEq, Repr

structure AgentState where
  messages : List Message
  file_paths : List String
  active_worker : String
  last_sql_query : Option String
  chart_code_generated : Option Bool
  deriving DecidableEq, Repr

/-- A partial-state patch as returned by a graph node: only the keys the
node's returned dictionary contains are present. For `last_sql_query` the
outer `Option` is presence of the key, the inner one the stored value. -/
structure Update where
  messages : Option (List Message)
  active_worker : Option String
  last_sql_query : Option (Option String)
  chart_code_generated : Option Bool
  deriving DecidableEq, Repr

/-- The empty patch. -/
def noUpdate : Update :=
  { messages := none, active_worker := none, last_sql_query := none,
    chart_code_generated := none }

/-- The `add_messages` reducer of `langgraph`: messages in `right` whose
identifier matches an existing message replace it in place; the others are
appended in order. -/
def addMessages (left right : List Message) : List Message :=
  (left.map (fun m => ((right.find? (fun r => r.id == m.id)).getD m))) ++
    right.filter (fun r => !(left.any (fun m => m.id == r.id)))

/-- Merge a node's partial-state patch into the run-wide state: the
message channel is reduced with `add_messages`, scalar channels are
overwritten when the patch carries them. -/
def applyUpdate (s : AgentState) (u : Update) : AgentState :=
  { messages :=
      match u.messages with
      | some ms => addMessages s.messages ms
      | none => s.messages,
    file_paths := s.file_paths,
    active_worker := (u.active_worker).getD s.active_worker,
    last_sql_query :=
      match u.last_sql_query with
      | some v => v
      | none => s.last_sql_query,
    chart_code_generated :=
      match u.chart_code_generated with
      | some v => some v
      | none => s.chart_code_generated }

/-! ## Router (`supervisor_node`, `src/nodes.py`) -/

/-- Python truthiness of the optional stored SQL statement
(`state.get("last_sql_query")`): absent and empty strings are falsy. -/
def optStrTruthy : Option String → Bool
  | none => false
  | some q => !(q == "")

/-- Safe text extraction: flatten list-style content by joining the
`"text"` entries with spaces, otherwise use the string itself. -/
def getText : MsgContent → String
  | .str s => s
  | .parts l => String.intercalate " " (l.map (fun p => p.getD ""))

def sql_keywords : List String := ["sql", "database", "table", "query"]

def routeUpdate (w : String) : Update :=
  { messages := none, active_worker := some w, last_sql_query := none,
    chart_code_generated := none }

/-- `supervisor_node`: routes on the latest message's text and the
available file names. -/
def supervisor_node (s : AgentState) : Update :=
  match s.messages.getLast? with
  | none => routeUpdate "general"
  | some last =>
    if msgType last.role == "assistant" && last.tool_calls.isEmpty then
      routeUpdate "general"
    else
      let query := pyLower (getText last.content)
      let has_db := s.file_paths.any (fun f => pyEndsWith (pyLower f) ".db")
      let has_csv := s.file_paths.any (fun f => pyEndsWith (pyLower f) ".csv")
      if has_db && sql_keywords.any (fun w => pyContains query w) then
        routeUpdate "sql_worker"
      else if has_csv then
        routeUpdate "csv_worker"
      else
        routeUpdate "general"

/-! ## Scanning helpers (embedding of the `re.search` calls of the source)

Python regular-expression search is embedded by specialized scanners with
the engine's semantics: the leftmost starting position wins, `.` never
matches a newline, lazy groups take the shortest extent, greedy pieces
the longest (with backtracking). -/

/-- Case-insensitive literal prefix test (`re.IGNORECASE`). -/
def ciStarts (pat l : List Char) : Bool :=
  decide (pat.length ≤ l.length ∧
    (l.take pat.length).map Char.toLower = pat.map Char.toLower)

/-- Try a pattern at every start position, leftmost first. -/
def scanFirst (f : List Char → Option (List Char)) : List Char → Option (List Char)
  | [] => none
  | c :: cs =>
    match f (c :: cs) with
    | some g => some g
    | none => scanFirst f cs

/-- Match a case-insensitive literal, returning the remainder. -/
def matchLitCI (pat l : List Char) : Option (List Char) :=
  if ciStarts pat l then some (l.drop pat.length) else none

/-- Match a case-sensitive literal, returning the remainder. -/
def matchLitCS (pat l : List Char) : Option (List Char) :=
  if pat.isPrefixOf l then some (l.drop pat.length) else none

/-- Lazy `(.+?)\]`: at least one non-newline character, shortest extent,
followed by a literal `]` (the bracket is not part of the group). -/
def lazyUntilRBrack (acc : List Char) : List Char → Option (List Char)
  | [] => none
  | c :: cs =>
    if acc.length > 0 && c == ']' then some acc.reverse
    else if c == '\n' then none
    else lazyUntilRBrack (c :: acc) cs

/-- The tabular worker's chart marker search,
`re.search(r"\[Chart saved to (.+?)\]", text)` (case sensitive). -/
def csvChartSearch (l : List Char) : Option (List Char) :=
  scanFirst
    (fun t => (matchLitCS "[Chart saved to ".toList t).bind
      (fun r => lazyUntilRBrack [] r)) l

/-! ## Worker nodes (`src/nodes.py`)

Each worker invokes the Language Model Capability at most once per
entry; the model's reply enters as the explicit `llmResp` argument.
Raised Python exceptions are `Except.error`. Identifiers for messages a
node itself constructs are assigned by the engine on insertion; they
enter as explicit fresh-identifier arguments. -/

/-- `"Chart saved to:" not in response.content`: substring test on string
content; on list-style content Python's `in` is an element-membership
test over the structured parts and yields `False`. -/
def contentContainsStr : MsgContent → String → Bool
  | .str s, lit => pyContains s lit
  | .parts _, _ => false

/-- Append the standardized chart-location suffix to the response text
(the source's f-string; structured-parts content would be rendered by
`str`, a corner no run reaches since model replies carry string
content — we leave the parts unchanged there). -/
def contentAppendChartSuffix (c : MsgContent) (p : String) : MsgContent :=
  match c with
  | .str s => .str (s ++ "\n\n📊 Chart saved to: " ++ p)
  | .parts l => .parts l

/-- `str(response.content)` as used inside an error f-string (structured
parts would be rendered by `str`; no claim depends on that corner). -/
def pyShow : MsgContent → String
  | .str s => s
  | .parts _ => ""

/-- `csv_worker_node`: summarization phase when the latest message is a
tool result, otherwise the code-generation phase whose contract mandates
a tool call. -/
def csv_worker_node (s : AgentState) (llmResp : Message) : Except String Update :=
  match s.messages.getLast? with
  | none => Except.error "IndexError: messages is empty"
  | some last =>
    if last.role = .tool then
      match last.content with
      | .parts _ => Except.error "Tool output is not a string. Tool normalization failed."
      | .str c =>
        let chart_path : Option String :=
          if pyContains c "[Chart saved to" then
            (csvChartSearch c.toList).map (fun g => String.mk g)
          else none
        let response :=
          match chart_path with
          | some p =>
            if !(p == "") && !(contentContainsStr llmResp.content "Chart saved to:") then
              { llmResp with content := contentAppendChartSuffix llmResp.content p }
            else llmResp
          | none => llmResp
        Except.ok { noUpdate with messages := some [response] }
    else
      if llmResp.tool_calls.isEmpty then
        Except.error "CSV worker failed to call python_analyst tool."
      else
        Except.ok { noUpdate with messages := some [llmResp] }

def chart_words : List String :=
  ["plot", "chart", "graph", "visualize", "draw",
   "histogram", "bar", "line", "scatter", "pie"]

/-- Chart-intent detection: substring scan of the lower-cased original
request for the fixed chart vocabulary. -/
def hasChartIntent (user_query : String) : Bool :=
  chart_words.any (fun w => pyContains user_query w)

/-- The fixed assistant error message emitted on a chart hand-off
inconsistency. -/
def sqlChartErrText : String :=
  "Error: Unable to generate chart - SQL query not found."

/-- `sql_worker_node`: post-execution phase when the latest message is a
tool result (summarize, or hand off to the chart worker on chart
intent), otherwise the query-generation phase. `errId` is the engine-
assigned identifier of the error message the node may construct. -/
def sql_worker_node (s : AgentState) (llmResp : Message) (errId : String) :
    Except String Update :=
  match s.file_paths.find? (fun f => pyEndsWith f ".db") with
  | none => Except.error "StopIteration"
  | some _db_file =>
    match s.messages with
    | [] => Except.error "IndexError: messages is empty"
    | m0 :: _rest =>
      let last := (s.messages.getLast?).getD m0
      match m0.content with
      | .parts _ => Except.error "AttributeError: content is not a string"
      | .str c0 =>
        let user_query := pyLower c0
        let has_chart_intent := hasChartIntent user_query
        if last.role = .tool then
          if has_chart_intent && optStrTruthy s.last_sql_query then
            Except.ok { noUpdate with
              active_worker := some "db_chart_worker",
              messages := some s.messages }
          else if has_chart_intent then
            Except.ok { noUpdate with
              messages := some (s.messages ++
                [{ id := errId, role := .ai,
                   content := .str sqlChartErrText, tool_calls := [] }]) }
          else
            Except.ok { noUpdate with messages := some [llmResp] }
        else
          if llmResp.role = .ai && !llmResp.tool_calls.isEmpty then
            match llmResp.tool_calls.head? with
            | none => Except.error "IndexError: tool_calls is empty"
            | some tc =>
              match tc.args.find? (fun kv => kv.1 == "query") with
              | none => Except.error "KeyError: query"
              | some kv =>
                Except.ok { noUpdate with
                  messages := some [llmResp],
                  last_sql_query := some (some kv.2) }
          else
            Except.ok { noUpdate with messages := some [llmResp] }

/-- `db_chart_worker_node`: summarize the chart tool result when it has
just been produced, otherwise generate chart code (a tool call is
mandated). -/
def db_chart_worker_node (s : AgentState) (llmResp : Message) :
    Except String Update :=
  if !(optStrTruthy s.last_sql_query) then
    Except.error "No SQL query found for chart generation."
  else
    match s.file_paths.find? (fun f => pyEndsWith f ".db") with
    | none => Except.error "StopIteration"
    | some _db_file =>
      match s.messages.getLast? with
      | none => Except.error "IndexError: messages is empty"
      | some last =>
        if last.role = .tool && (s.chart_code_generated).getD false then
          Except.ok { noUpdate with
            messages := some [llmResp], chart_code_generated := some false }
        else
          if llmResp.tool_calls.isEmpty then
            Except.error ("db_chart_worker failed to call db_python_analyst tool. Response: "
              ++ pyShow llmResp.content)
          else
            Except.ok { noUpdate with
              messages := some [llmResp], chart_code_generated := some true }

/-! ## Graph wiring (`src/graph.py`) -/

/-- The SQL worker's routing function: pending tool call → the SQL tool
node; `active_worker` flipped to the chart worker → the chart worker;
otherwise the branch ends. -/
def sql_router (s : AgentState) : Except String String :=
  match s.messages.getLast? with
  | none => Except.error "IndexError: messages is empty"
  | some last =>
    if last.role = .ai && !last.tool_calls.isEmpty then Except.ok "sql_tools"
    else if s.active_worker == "db_chart_worker" then Except.ok "db_chart_worker"
    else Except.ok "END"

/-- The `sql_tools` node: executes the pending SQL tool call (the tool
result enters as the oracle message `toolMsg`) and explicitly re-asserts
the stored SQL statement. -/
def call_sql_tools (s : AgentState) (toolMsg : Message) : Except String Update :=
  match s.file_paths.find? (fun f => pyEndsWith f ".db") with
  | none => Except.error "StopIteration"
  | some _ =>
    Except.ok { noUpdate with
      messages := some [toolMsg], last_sql_query := some s.last_sql_query }

/-- A `ToolNode` execution: appends the tool-result message. -/
def tool_node_update (toolMsg : Message) : Update :=
  { noUpdate with messages := some [toolMsg] }

/-! ## Chart-path extraction (`extract_chart_path`, `src/app_ui.py`)

Two patterns are tried in order on the whole text, both with
`re.IGNORECASE`: `saved to:\s*(.+?\.png)` and
`\[Chart saved to\s+(.+?\.png)\]`.  On a hit, the group is stripped; if
it mentions `charts` the inner pattern `charts[/\\]([\w\-_.]+\.png)`
re-extracts the relative part, else a `charts`-prefixed path has its
backslashes normalized, else the raw group is returned. -/

/-- Python `\s` (ASCII range). -/
def isWs (c : Char) : Bool :=
  c == ' ' || c == '\t' || c == '\n' || c == '\r' || c == '\x0b' || c == '\x0c'

/-- Length of the leading whitespace run (the maximal extent of `\s*`). -/
def countWs : List Char → Nat
  | [] => 0
  | c :: cs => if isWs c then countWs cs + 1 else 0

/-- Python `str.strip()`. -/
def stripChars (l : List Char) : List Char :=
  ((l.dropWhile isWs).reverse.dropWhile isWs).reverse

/-- Case-insensitive substring occurrence (`pat in s.lower()` for a
lower-case `pat`). -/
def occursCI (pat l : List Char) : Bool := l.tails.any (fun t => ciStarts pat t)

/-- Lazy `(.+?\.png)`: shortest body of at least one non-newline
character followed by a case-insensitive `.png`, which is part of the
group. -/
def lazyDotPng (acc : List Char) : List Char → Option (List Char)
  | [] => none
  | c :: cs =>
    if acc.length > 0 && ciStarts ".png".toList (c :: cs) then
      some (acc.reverse ++ (c :: cs).take 4)
    else if c == '\n' then none
    else lazyDotPng (c :: acc) cs

/-- Lazy `(.+?\.png)\]`: as `lazyDotPng` but the `.png` must be followed
by a literal `]` (not part of the group). -/
def lazyDotPngBr (acc : List Char) : List Char → Option (List Char)
  | [] => none
  | c :: cs =>
    if acc.length > 0 && ciStarts ".png".toList (c :: cs) &&
        ((c :: cs).drop 4).head? == some ']' then
      some (acc.reverse ++ (c :: cs).take 4)
    else if c == '\n' then none
    else lazyDotPngBr (c :: acc) cs

/-- Greedy `\s*` with backtracking: try the longest whitespace extent
first, down to zero. -/
def wsBackStar (lazyM : List Char → Option (List Char)) (cs : List Char) :
    Nat → Option (List Char)
  | 0 => lazyM cs
  | j + 1 =>
    match lazyM (cs.drop (j + 1)) with
    | some g => some g
    | none => wsBackStar lazyM cs j

/-- Greedy `\s+` with backtracking: at least one whitespace character. -/
def wsBackPlus (lazyM : List Char → Option (List Char)) (cs : List Char) :
    Nat → Option (List Char)
  | 0 => none
  | j + 1 =>
    match lazyM (cs.drop (j + 1)) with
    | some g => some g
    | none => wsBackPlus lazyM cs j

/-- One attempt of `saved to:\s*(.+?\.png)` at a fixed start. -/
def p1at (l : List Char) : Option (List Char) :=
  (matchLitCI "saved to:".toList l).bind
    (fun r => wsBackStar (lazyDotPng []) r (countWs r))

/-- One attempt of `\[Chart saved to\s+(.+?\.png)\]` at a fixed start. -/
def p2at (l : List Char) : Option (List Char) :=
  (matchLitCI "[chart saved to".toList l).bind
    (fun r => wsBackPlus (lazyDotPngBr []) r (countWs r))

/-- The character class `[\w\-_.]` (ASCII range of `\w`). -/
def innerClassChar (c : Char) : Bool :=
  c.isAlphanum || c == '_' || c == '-' || c == '.'

/-- Greedy `[\w\-_.]+\.png` with backtracking: longest class run whose
continuation matches a case-insensitive `.png`; the fuel starts at the
maximal class-run length. -/
def greedyClassPng (cs : List Char) : Nat → Option (List Char)
  | 0 => none
  | m + 1 =>
    if ciStarts ".png".toList (cs.drop (m + 1)) then some (cs.take (m + 1 + 4))
    else greedyClassPng cs m

/-- One attempt of `charts[/\\]([\w\-_.]+\.png)` at a fixed start. -/
def innerAt (l : List Char) : Option (List Char) :=
  (matchLitCI "charts".toList l).bind
    (fun r =>
      match r with
      | [] => none
      | c :: rest =>
        if c == '/' || c == '\\' then
          greedyClassPng rest (rest.takeWhile innerClassChar).length
        else none)

/-- The body executed once one of the two outer patterns has matched:
strip the group, re-extract the `charts/…` part when present, normalize
a relative `charts` path, else return the group verbatim. -/
def afterMatch (g : List Char) : String :=
  let full_path := stripChars g
  let viaCharts : Option String :=
    if occursCI "charts".toList full_path then
      match scanFirst innerAt full_path with
      | some g1 => some ("charts/" ++ String.mk g1)
      | none => none
    else none
  match viaCharts with
  | some r => r
  | none =>
    if "charts".toList.isPrefixOf full_path then
      String.mk (full_path.map (fun c => if c == '\\' then '/' else c))
    else String.mk full_path

/-- `extract_chart_path`: try the two patterns in order; the first hit
decides the result. -/
def extract_chart_path (text : String) : Option String :=
  match scanFirst p1at text.toList with
  | some g => some (afterMatch g)
  | none =>
    match scanFirst p2at text.toList with
    | some g => some (afterMatch g)
    | none => none

/-! ## Run entry (`src/main.py`) and the orchestration graph -/

/-- The global step limit passed by `process_query`
(`"recursion_limit": 100`). -/
def recursion_limit : Nat := 100

/-- The initial state `process_query` builds:
`{"messages": [HumanMessage(prompt)], "file_paths": files,
"active_worker": "supervisor"}`; `uid` is the engine-assigned identifier
of the originating user message. -/
def initialState (prompt : String) (uid : String) (files : List String) :
    AgentState :=
  { messages := [{ id := uid, role := .human, content := .str prompt,
                   tool_calls := [] }],
    file_paths := files, active_worker := "supervisor",
    last_sql_query := none, chart_code_generated := none }

inductive GNode where
  | supervisor
  | csv_worker
  | sql_worker
  | db_chart_worker
  | csv_tools
  | sql_tools
  | db_chart_tools
  deriving DecidableEq, Repr

/-- Execute one node: the language-model reply and the tool result enter
through the oracles `llmO` and `toolO`; `freshO` supplies the
engine-assigned identifier for a message the SQL worker constructs. -/
def execNode (llmO toolO : AgentState → Message) (freshO : AgentState → String) :
    GNode → AgentState → Except String Update
  | .supervisor, s => Except.ok (supervisor_node s)
  | .csv_worker, s => csv_worker_node s (llmO s)
  | .sql_worker, s => sql_worker_node s (llmO s) (freshO s)
  | .db_chart_worker, s => db_chart_worker_node s (llmO s)
  | .csv_tools, s => Except.ok (tool_node_update (toolO s))
  | .db_chart_tools, s => Except.ok (tool_node_update (toolO s))
  | .sql_tools, s => call_sql_tools s (toolO s)

/-- The conditional edges of `create_workflow` (`src/graph.py`); `none`
is the graph's end. -/
def routeFrom : GNode → AgentState → Except String (Option GNode)
  | .supervisor, s =>
    if s.active_worker == "csv_worker" then Except.ok (some .csv_worker)
    else if s.active_worker == "sql_worker" then Except.ok (some .sql_worker)
    else if s.active_worker == "general" then Except.ok none
    else Except.error "unknown supervisor branch"
  | .csv_worker, s =>
    match s.messages.getLast? with
    | none => Except.error "IndexError: messages is empty"
    | some m =>
      Except.ok (if m.role = .ai && !m.tool_calls.isEmpty then some .csv_tools else none)
  | .csv_tools, _ => Except.ok (some .csv_worker)
  | .sql_worker, s =>
    match sql_router s with
    | .error e => Except.error e
    | .ok "sql_tools" => Except.ok (some .sql_tools)
    | .ok "db_chart_worker" => Except.ok (some .db_chart_worker)
    | .ok "END" => Except.ok none
    | .ok _ => Except.error "unknown sql branch"
  | .sql_tools, _ => Except.ok (some .sql_worker)
  | .db_chart_worker, s =>
    match s.messages.getLast? with
    | none => Except.error "IndexError: messages is empty"
    | some m =>
      Except.ok (if m.role = .ai && !m.tool_calls.isEmpty then some .db_chart_tools else none)
  | .db_chart_tools, _ => Except.ok (some .db_chart_worker)

/-- Modelled from the spec: the graph execution engine itself (the
`langgraph` runtime invoked by `app_graph.invoke`) is not part of the
repository's sources; per §4.5 a global recursion/step limit caps total
node visits per run and exceeding it is a fatal run error.  The executor
steps through the wiring of `src/graph.py`, spends one unit of the step
budget per node visit, and reports the exhaustion error when the budget
is gone.  The second component counts the node visits actually made. -/
def runLoop (llmO toolO : AgentState → Message) (freshO : AgentState → String) :
    Nat → GNode → AgentState → (Except String AgentState) × Nat
  | 0, _, _ => (Except.error "GraphRecursionError: recursion limit reached", 0)
  | n + 1, g, s =>
    match execNode llmO toolO freshO g s with
    | .error e => (.error e, 1)
    | .ok u =>
      let s' := applyUpdate s u
      match routeFrom g s' with
      | .error e => (.error e, 1)
      | .ok none => (.ok s', 1)
      | .ok (some g') =>
        let r := runLoop llmO toolO freshO n g' s'
        (r.1, r.2 + 1)

/-! ## Step relation: one node application with its oracle inputs -/

/-- The engine assigns a fresh identifier to every newly inserted
message: `i` collides with no message already in the state. -/
def FreshFor (i : String) (s : AgentState) : Prop :=
  ∀ m ∈ s.messages, m.id ≠ i

/-- One router or worker step of a run: a node applied to the state with
its oracle inputs, the returned patch merged by the engine. -/
inductive Step : AgentState → AgentState → Prop where
  | supervisor (s : AgentState) : Step s (applyUpdate s (supervisor_node s))
  | csv (s : AgentState) (resp : Message) (u : Update) :
      FreshFor resp.id s → csv_worker_node s resp = .ok u →
      Step s (applyUpdate s u)
  | sql (s : AgentState) (resp : Message) (fid : String) (u : Update) :
      FreshFor resp.id s → FreshFor fid s →
      sql_worker_node s resp fid = .ok u → Step s (applyUpdate s u)
  | chart (s : AgentState) (resp : Message) (u : Update) :
      FreshFor resp.id s → db_chart_worker_node s resp = .ok u →
      Step s (applyUpdate s u)
  | tools (s : AgentState) (tmsg : Message) :
      FreshFor tmsg.id s → Step s (applyUpdate s (tool_node_update tmsg))
  | sqlTools (s : AgentState) (tmsg : Message) (u : Update) :
      FreshFor tmsg.id s → call_sql_tools s tmsg = .ok u →
      Step s (applyUpdate s u)

/-- States reachable from a given initial state by router/worker steps. -/
inductive Reachable (init : AgentState) : AgentState → Prop where
  | refl : Reachable init init
  | step {s s' : AgentState} : Reachable init s → Step s s' → Reachable init s'

/-! ## Statement-side vocabulary for the claims -/

/-- Characters allowed in a leading path prefix: anything except a
(case-folded) dot, a newline, and whitespace — this covers drive
letters, separators of both flavors and ordinary name characters. -/
def pathChar (c : Char) : Bool :=
  !(Char.toLower c == '.') && !(c == '\n') && !(isWs c)

/-- Characters of a simple file base name: word characters and dashes
(dotless). -/
def simpleNameChar (c : Char) : Bool :=
  innerClassChar c && !(Char.toLower c == '.')

/-- Python word characters (ASCII range of `\w`). -/
def wordCharPy (c : Char) : Bool := c.isAlphanum || c == '_'

/-- The maximal word-character runs of a string. -/
def wordsOf (s : String) : List (List Char) :=
  s.toList.foldr
    (fun c acc =>
      if wordCharPy c then
        match acc with
        | [] => [[c]]
        | w :: rest => (c :: w) :: rest
      else [] :: acc) []

/-- Whole-word containment: the contrast the substring-containment claim
draws (a spec-side definition, not part of the source). -/
def wholeWordContains (s w : String) : Bool :=
  (wordsOf s).any (fun t => t == w.toList)

/-- Whether a message content is a plain string. -/
def strContent : MsgContent → Bool
  | .str _ => true
  | .parts _ => false

/-- All message contents in a history are plain strings. -/
def contentsAllStr (ms : List Message) : Bool :=
  ms.all (fun m => strContent m.content)

/-- A message identifier strictly longer than every identifier in the
history, hence fresh (stands in for the engine's fresh uuids). -/
def freshMsgId (ms : List Message) : String :=
  (ms.foldr (fun m acc => m.id ++ acc) "") ++ "x"

/-- A misbehaving model oracle: every reply requests another tool
call. -/
def alwaysToolCallMsg (s : AgentState) : Message :=
  { id := freshMsgId s.messages, role := .ai, content := .str "go",
    tool_calls := [{ name := "python_analyst",
                     args := [("code", "print(1)"), ("file_name", "a.csv")] }] }

/-- A tool oracle producing a plain string result. -/
def toolResultMsg (s : AgentState) : Message :=
  { id := freshMsgId s.messages, role := .tool, content := .str "out",
    tool_calls := [] }

/-! ## Lemmas about the message reducer -/

theorem find?_id_self {l : List Message} {m : Message}
    (hnd : (l.map Message.id).Nodup) (hm : m ∈ l) :
    l.find? (fun r => r.id == m.id) = some m := by
  induction l with
  | nil => cases hm
  | cons a t ih =>
    have hnd' : (a.id :: t.map Message.id).Nodup := by simpa using hnd
    rcases List.mem_cons.mp hm with rfl | hmt
    · simp [List.find?]
    · have hne : ¬ (a.id == m.id) = true := by
        intro he
        have h1 : m.id ∈ t.map Message.id := List.mem_map_of_mem _ hmt
        have h2 : a.id = m.id := by simpa using he
        exact (List.nodup_cons.mp hnd').1 (h2 ▸ h1)
      have := ih (List.nodup_cons.mp hnd').2 hmt
      simpa [List.find?, hne] using this

theorem find?_append_some {α : Type} {p : α → Bool} {l₁ l₂ : List α} {a : α}
    (h : l₁.find? p = some a) : (l₁ ++ l₂).find? p = some a := by
  induction l₁ with
  | nil => simp [List.find?] at h
  | cons b t ih =>
    by_cases hb : p b = true
    · simp only [List.find?, hb] at h ⊢
      exact h
    · have hb' : p b = false := by simpa using hb
      simp only [List.find?, hb'] at h ⊢
      exact ih h

/-- Merging messages whose identifiers are all new appends them. -/
theorem addMessages_fresh (l new : List Message)
    (h : ∀ r ∈ new, ∀ m ∈ l, m.id ≠ r.id) :
    addMessages l new = l ++ new := by
  unfold addMessages
  have h1 : ∀ m ∈ l, ((new.find? (fun r => r.id == m.id)).getD m) = m := by
    intro m hm
    have hn : new.find? (fun r => r.id == m.id) = none := by
      apply List.find?_eq_none.mpr
      intro r hr hbeq
      have hre : r.id = m.id := by simpa using hbeq
      exact h r hr m hm hre.symm
    rw [hn]
    rfl
  have h2 : new.filter (fun r => !(l.any (fun m => m.id == r.id))) = new := by
    apply List.filter_eq_self.mpr
    intro r hr
    have : l.any (fun m => m.id == r.id) = false := by
      apply List.any_eq_false.mpr
      intro m hm hbeq
      exact h r hr m hm (by simpa using hbeq)
    simp [this]
  rw [h2]
  congr 1
  calc l.map (fun m => ((new.find? (fun r => r.id == m.id)).getD m))
      = l.map id := List.map_congr_left h1
    _ = l := List.map_id l

/-- Re-submitting the existing history is a no-op of the reducer. -/
theorem addMessages_self (l : List Message)
    (hnd : (l.map Message.id).Nodup) : addMessages l l = l := by
  unfold addMessages
  have h1 : ∀ m ∈ l, ((l.find? (fun r => r.id == m.id)).getD m) = m := by
    intro m hm
    rw [find?_id_self hnd hm]
    rfl
  have h2 : l.filter (fun r => !(l.any (fun m => m.id == r.id))) = [] := by
    apply List.filter_eq_nil_iff.mpr
    intro r hr
    have : l.any (fun m => m.id == r.id) = true :=
      List.any_eq_true.mpr ⟨r, hr, by simp⟩
    simp [this]
  rw [h2, List.append_nil]
  calc l.map (fun m => ((l.find? (fun r => r.id == m.id)).getD m))
      = l.map id := List.map_congr_left h1
    _ = l := List.map_id l

/-- Re-submitting the history plus one fresh message appends exactly that
message. -/
theorem addMessages_self_append (l : List Message) (e : Message)
    (hnd : (l.map Message.id).Nodup) (hf : ∀ m ∈ l, m.id ≠ e.id) :
    addMessages l (l ++ [e]) = l ++ [e] := by
  unfold addMessages
  have h1 : ∀ m ∈ l, (((l ++ [e]).find? (fun r => r.id == m.id)).getD m) = m := by
    intro m hm
    rw [find?_append_some (find?_id_self hnd hm)]
    rfl
  have h2 : (l ++ [e]).filter (fun r => !(l.any (fun m => m.id == r.id))) = [e] := by
    rw [List.filter_append]
    have hl : l.filter (fun r => !(l.any (fun m => m.id == r.id))) = [] := by
      apply List.filter_eq_nil_iff.mpr
      intro r hr
      have : l.any (fun m => m.id == r.id) = true :=
        List.any_eq_true.mpr ⟨r, hr, by simp⟩
      simp [this]
    have he : [e].filter (fun r => !(l.any (fun m => m.id == r.id))) = [e] := by
      have : l.any (fun m => m.id == e.id) = false := by
        apply List.any_eq_false.mpr
        intro m hm hbeq
        exact hf m hm (by simpa using hbeq)
      simp [List.filter, this]
    rw [hl, he, List.nil_append]
  rw [h2]
  congr 1
  calc l.map (fun m => (((l ++ [e]).find? (fun r => r.id == m.id)).getD m))
      = l.map id := List.map_congr_left h1
    _ = l := List.map_id l

/-! ## Claim theorems -/

/-- C2 (code bug): the claim says an assistant message with no
outstanding tool call routes to `done`. The source's guard compares
`last_message.type` against the literal `"assistant"`, but assistant
messages carry the type tag `"ai"`, so the guard can never fire: on a
state whose latest message is an assistant message without tool calls
mentioning a database, with a `.db` file present, the router proceeds to
keyword routing and selects the SQL worker instead of the terminal
outcome. -/
theorem supervisor_assistant_guard_dead :
    (supervisor_node
      { messages := [{ id := "a1", role := .ai,
                       content := .str "please check the database",
                       tool_calls := [] }],
        file_paths := ["shop.db"], active_worker := "supervisor",
        last_sql_query := none,
        chart_code_generated := none }).active_worker = some "sql_worker"
    ∧ msgType MsgRole.ai ≠ "assistant" := by
  exact ⟨by decide, by decide⟩

/-- C1: router policy. For every state with a non-empty message list,
the supervisor selects the SQL worker iff a file name ends (after
lower-casing) in `.db` and the lower-cased text of the latest message
contains one of the SQL keywords; otherwise it selects the tabular
worker iff a file name ends in `.csv`; otherwise it routes to the
terminal `general` outcome. The SQL check takes priority. -/
theorem router_policy (s : AgentState) (last : Message)
    (h : s.messages.getLast? = some last) :
    ((supervisor_node s).active_worker = some "sql_worker" ↔
      (s.file_paths.any (fun f => pyEndsWith (pyLower f) ".db") &&
       sql_keywords.any (fun w => pyContains (pyLower (getText last.content)) w)) = true) ∧
    ((supervisor_node s).active_worker = some "csv_worker" ↔
      ((s.file_paths.any (fun f => pyEndsWith (pyLower f) ".db") &&
        sql_keywords.any (fun w => pyContains (pyLower (getText last.content)) w)) = false ∧
       s.file_paths.any (fun f => pyEndsWith (pyLower f) ".csv") = true)) ∧
    ((supervisor_node s).active_worker = some "general" ↔
      ((s.file_paths.any (fun f => pyEndsWith (pyLower f) ".db") &&
        sql_keywords.any (fun w => pyContains (pyLower (getText last.content)) w)) = false ∧
       s.file_paths.any (fun f => pyEndsWith (pyLower f) ".csv") = false)) := by
  have hg : (msgType last.role == "assistant") = false := by
    cases last.role <;> rfl
  have e1 : supervisor_node s =
      (if (s.file_paths.any (fun f => pyEndsWith (pyLower f) ".db") &&
            sql_keywords.any (fun w => pyContains (pyLower (getText last.content)) w)) then
         routeUpdate "sql_worker"
       else if s.file_paths.any (fun f => pyEndsWith (pyLower f) ".csv") then
         routeUpdate "csv_worker"
       else routeUpdate "general") := by
    unfold supervisor_node
    rw [h]
    simp [hg]
  rw [e1]
  by_cases h1 : (s.file_paths.any (fun f => pyEndsWith (pyLower f) ".db") &&
      sql_keywords.any (fun w => pyContains (pyLower (getText last.content)) w)) = true
  · simp [h1, routeUpdate]
  · by_cases h2 : s.file_paths.any (fun f => pyEndsWith (pyLower f) ".csv") = true
    · simp [h1, h2, routeUpdate]
    · simp [h1, h2, routeUpdate]

/-- Witness for C1: a database question with a `.db` file is routed to
the SQL worker. -/
theorem router_policy_witness :
    (supervisor_node
      { messages := [{ id := "u1", role := .human,
                       content := .str "What tables are in the database?",
                       tool_calls := [] }],
        file_paths := ["shop.db"], active_worker := "supervisor",
        last_sql_query := none,
        chart_code_generated := none }).active_worker = some "sql_worker" :=
  ((router_policy
    { messages := [{ id := "u1", role := .human,
                     content := .str "What tables are in the database?",
                     tool_calls := [] }],
      file_paths := ["shop.db"], active_worker := "supervisor",
      last_sql_query := none, chart_code_generated := none }
    { id := "u1", role := .human,
      content := .str "What tables are in the database?",
      tool_calls := [] } rfl).1).mpr (by decide)

/-- C10: both the router's SQL-keyword test and the chart-intent test
are substring scans on the lower-cased text, not whole-word matches:
`"table"` inside `"stable"` still routes to the SQL worker, and `"bar"`
inside `"barbecue"` still counts as chart intent, although neither text
contains the keyword as a whole word. -/
theorem keyword_substring_matching :
    (supervisor_node
      { messages := [{ id := "u1", role := .human,
                       content := .str "Is this stable?", tool_calls := [] }],
        file_paths := ["a.db"], active_worker := "supervisor",
        last_sql_query := none,
        chart_code_generated := none }).active_worker = some "sql_worker"
    ∧ wholeWordContains (pyLower "Is this stable?") "table" = false
    ∧ hasChartIntent (pyLower "Describe the barbecue data") = true
    ∧ wholeWordContains (pyLower "Describe the barbecue data") "bar" = false := by
  exact ⟨by decide, by decide, by decide, by decide⟩

/-- C9 (code bug): the supervisor accepts `DATA.DB` (its check
lower-cases the name), but the SQL worker's and the chart worker's
`next(f for f in file_paths if f.endswith('.db'))` is case sensitive,
finds no file and raises `StopIteration`. -/
theorem db_selection_case_mismatch :
    (supervisor_node
      { messages := [{ id := "u1", role := .human,
                       content := .str "show the database", tool_calls := [] }],
        file_paths := ["DATA.DB"], active_worker := "supervisor",
        last_sql_query := none,
        chart_code_generated := none }).active_worker = some "sql_worker"
    ∧ ["DATA.DB"].find? (fun f => pyEndsWith f ".db") = none
    ∧ sql_worker_node
        { messages := [{ id := "u1", role := .human,
                         content := .str "show the database", tool_calls := [] }],
          file_paths := ["DATA.DB"], active_worker := "sql_worker",
          last_sql_query := none, chart_code_generated := none }
        { id := "a1", role := .ai, content := .str "x", tool_calls := [] }
        "e1" = Except.error "StopIteration"
    ∧ db_chart_worker_node
        { messages := [{ id := "u1", role := .human,
                         content := .str "show the database", tool_calls := [] }],
          file_paths := ["DATA.DB"], active_worker := "db_chart_worker",
          last_sql_query := some "SELECT 1", chart_code_generated := none }
        { id := "a1", role := .ai, content := .str "x", tool_calls := [] }
      = Except.error "StopIteration" := by
  exact ⟨by decide, by decide, by rfl, by rfl⟩

/-- C3 (counterexample): the claim asserts that every worker whose
generation phase mandates a tool call raises a worker error when the
model reply carries none — including the SQL worker. In the SQL worker's
query-generation phase a reply without tool calls is returned without
error, and the branch then ends silently. -/
theorem sql_worker_no_toolcall_silent :
    sql_worker_node
      { messages := [{ id := "u1", role := .human,
                       content := .str "query the database", tool_calls := [] }],
        file_paths := ["shop.db"], active_worker := "sql_worker",
        last_sql_query := none, chart_code_generated := none }
      { id := "a1", role := .ai,
        content := .str "Here is some text instead of a tool call.",
        tool_calls := [] }
      "e1"
    = Except.ok { noUpdate with
        messages := some [{ id := "a1", role := .ai,
                            content := .str "Here is some text instead of a tool call.",
                            tool_calls := [] }] }
    ∧ sql_router
        (applyUpdate
          { messages := [{ id := "u1", role := .human,
                           content := .str "query the database", tool_calls := [] }],
            file_paths := ["shop.db"], active_worker := "sql_worker",
            last_sql_query := none, chart_code_generated := none }
          { noUpdate with
            messages := some [{ id := "a1", role := .ai,
                                content := .str "Here is some text instead of a tool call.",
                                tool_calls := [] }] })
      = Except.ok "END" := by
  exact ⟨by rfl, by rfl⟩

/-- A helper: the last element of a history extended by one message. -/
theorem getLast?_append_single {α : Type} (l : List α) (a : α) :
    (l ++ [a]).getLast? = some a := by
  induction l with
  | nil => rfl
  | cons b t ih =>
    cases t with
    | nil => rfl
    | cons c t' => simpa [List.cons_append, List.getLast?_cons_cons] using ih

/-- C3 (amended): in the generation phase with a model reply carrying no
tool call, the tabular worker and the chart worker raise a fatal worker
error, while the SQL worker returns the reply without error (the branch
then ends silently rather than failing the run). -/
theorem worker_tool_contract
    (s : AgentState) (resp : Message) (fid : String)
    (m0 : Message) (tl : List Message) (last : Message) (c0 : String) (dbf : String)
    (hms : s.messages = m0 :: tl)
    (hc0 : m0.content = .str c0)
    (hl : s.messages.getLast? = some last)
    (hlr : last.role ≠ .tool)
    (hdb : s.file_paths.find? (fun f => pyEndsWith f ".db") = some dbf)
    (hsql : optStrTruthy s.last_sql_query = true)
    (hr : resp.tool_calls = []) :
    csv_worker_node s resp = Except.error "CSV worker failed to call python_analyst tool."
    ∧ db_chart_worker_node s resp =
        Except.error ("db_chart_worker failed to call db_python_analyst tool. Response: "
          ++ pyShow resp.content)
    ∧ sql_worker_node s resp fid = Except.ok { noUpdate with messages := some [resp] } := by
  refine ⟨?_, ?_, ?_⟩
  · simp only [csv_worker_node, hl]
    rw [if_neg hlr]
    simp [hr]
  · have hlrb : (decide (last.role = MsgRole.tool)) = false := decide_eq_false hlr
    simp only [db_chart_worker_node, hsql, hdb, hl]
    simp [hlrb, hr]
  · have hl' : (m0 :: tl).getLast? = some last := hms ▸ hl
    simp only [sql_worker_node, hdb, hms, hl', hc0]
    rw [if_neg ?hneg]
    case hneg => simpa using hlr
    simp [hr]

/-- Witness for C3's amended statement: a concrete generation-phase
state and a plain-text model reply. -/
theorem worker_tool_contract_witness :
    csv_worker_node
      { messages := [{ id := "u1", role := .human,
                       content := .str "query the database", tool_calls := [] }],
        file_paths := ["shop.db"], active_worker := "sql_worker",
        last_sql_query := some "SELECT 1", chart_code_generated := none }
      { id := "a1", role := .ai, content := .str "plain text", tool_calls := [] }
    = Except.error "CSV worker failed to call python_analyst tool." :=
  (worker_tool_contract
    { messages := [{ id := "u1", role := .human,
                     content := .str "query the database", tool_calls := [] }],
      file_paths := ["shop.db"], active_worker := "sql_worker",
      last_sql_query := some "SELECT 1", chart_code_generated := none }
    { id := "a1", role := .ai, content := .str "plain text", tool_calls := [] }
    "e1"
    { id := "u1", role := .human, content := .str "query the database", tool_calls := [] }
    []
    { id := "u1", role := .human, content := .str "query the database", tool_calls := [] }
    "query the database" "shop.db"
    rfl rfl rfl (by decide) rfl rfl rfl).1

/-- C4: SQL-to-chart hand-off. In the post-execution phase with chart
intent and a stored non-empty SQL statement, the SQL worker returns the
patch that sets `active_worker` to the chart worker and re-submits the
history; merging it leaves both the stored statement and the message
history unchanged, and the SQL routing function then directs control to
the chart worker. -/
theorem sql_chart_handoff
    (s : AgentState) (resp : Message) (fid : String)
    (m0 : Message) (tl : List Message) (last : Message) (c0 dbf q : String)
    (hms : s.messages = m0 :: tl)
    (hc0 : m0.content = .str c0)
    (hintent : hasChartIntent (pyLower c0) = true)
    (hl : s.messages.getLast? = some last)
    (hlr : last.role = .tool)
    (hdb : s.file_paths.find? (fun f => pyEndsWith f ".db") = some dbf)
    (hq : s.last_sql_query = some q)
    (hqne : ¬ (q = ""))
    (hnd : (s.messages.map Message.id).Nodup) :
    sql_worker_node s resp fid = Except.ok
      { noUpdate with
        active_worker := some "db_chart_worker"
        messages := some s.messages }
    ∧ (applyUpdate s
        { noUpdate with
          active_worker := some "db_chart_worker"
          messages := some s.messages }).last_sql_query = some q
    ∧ (applyUpdate s
        { noUpdate with
          active_worker := some "db_chart_worker"
          messages := some s.messages }).messages = s.messages
    ∧ sql_router (applyUpdate s
        { noUpdate with
          active_worker := some "db_chart_worker"
          messages := some s.messages }) = Except.ok "db_chart_worker" := by
  have hmsgs : addMessages s.messages s.messages = s.messages :=
    addMessages_self _ hnd
  have htr : optStrTruthy s.last_sql_query = true := by
    rw [hq]; simp [optStrTruthy, hqne]
  refine ⟨?_, ?_, ?_, ?_⟩
  · have hl' : (m0 :: tl).getLast? = some last := hms ▸ hl
    simp only [sql_worker_node, hdb, hms, hl', hc0, Option.getD_some]
    rw [if_pos hlr]
    simp [hintent, htr]
  · simp [applyUpdate, hq, noUpdate]
  · simp [applyUpdate, hmsgs, noUpdate]
  · simp only [sql_router, applyUpdate, noUpdate, hmsgs, hl]
    simp [hlr]

/-- Witness for C4: a concrete post-execution state with chart intent
and a stored statement. -/
theorem sql_chart_handoff_witness :
    sql_worker_node
      { messages := [{ id := "u1", role := .human,
                       content := .str "plot the database data", tool_calls := [] },
                     { id := "t1", role := .tool,
                       content := .str "rows", tool_calls := [] }],
        file_paths := ["shop.db"], active_worker := "sql_worker",
        last_sql_query := some "SELECT 1", chart_code_generated := none }
      { id := "a9", role := .ai, content := .str "x", tool_calls := [] }
      "e1"
    = Except.ok
      { noUpdate with
        active_worker := some "db_chart_worker"
        messages := some
          [{ id := "u1", role := .human,
             content := .str "plot the database data", tool_calls := [] },
           { id := "t1", role := .tool,
             content := .str "rows", tool_calls := [] }] } :=
  (sql_chart_handoff
    { messages := [{ id := "u1", role := .human,
                     content := .str "plot the database data", tool_calls := [] },
                   { id := "t1", role := .tool,
                     content := .str "rows", tool_calls := [] }],
      file_paths := ["shop.db"], active_worker := "sql_worker",
      last_sql_query := some "SELECT 1", chart_code_generated := none }
    { id := "a9", role := .ai, content := .str "x", tool_calls := [] }
    "e1"
    { id := "u1", role := .human,
      content := .str "plot the database data", tool_calls := [] }
    [{ id := "t1", role := .tool, content := .str "rows", tool_calls := [] }]
    { id := "t1", role := .tool, content := .str "rows", tool_calls := [] }
    "plot the database data" "shop.db" "SELECT 1"
    rfl rfl (by decide) rfl rfl rfl rfl (by decide) (by decide)).1

/-- C5: chart intent with no stored SQL statement. The SQL worker's
post-execution phase returns without raising, appends the fixed
user-visible assistant error message to the history, and the routing
function then ends the branch. -/
theorem sql_chart_missing_query
    (s : AgentState) (resp : Message) (fid : String)
    (m0 : Message) (tl : List Message) (last : Message) (c0 : String) (dbf : String)
    (hms : s.messages = m0 :: tl)
    (hc0 : m0.content = .str c0)
    (hintent : hasChartIntent (pyLower c0) = true)
    (hl : s.messages.getLast? = some last)
    (hlr : last.role = .tool)
    (hdb : s.file_paths.find? (fun f => pyEndsWith f ".db") = some dbf)
    (hq : optStrTruthy s.last_sql_query = false)
    (hnd : (s.messages.map Message.id).Nodup)
    (hfresh : ∀ m ∈ s.messages, m.id ≠ fid)
    (haw : s.active_worker = "sql_worker") :
    sql_worker_node s resp fid = Except.ok
      { noUpdate with
        messages := some (s.messages ++
          [{ id := fid, role := .ai, content := .str sqlChartErrText,
             tool_calls := [] }]) }
    ∧ (applyUpdate s
        { noUpdate with
          messages := some (s.messages ++
            [{ id := fid, role := .ai, content := .str sqlChartErrText,
               tool_calls := [] }]) }).messages
      = s.messages ++ [{ id := fid, role := .ai,
                         content := .str sqlChartErrText, tool_calls := [] }]
    ∧ sql_router (applyUpdate s
        { noUpdate with
          messages := some (s.messages ++
            [{ id := fid, role := .ai, content := .str sqlChartErrText,
               tool_calls := [] }]) })
      = Except.ok "END" := by
  have hmsgs : addMessages s.messages
      (s.messages ++ [{ id := fid, role := .ai,
                        content := .str sqlChartErrText, tool_calls := [] }])
      = s.messages ++ [{ id := fid, role := .ai,
                         content := .str sqlChartErrText, tool_calls := [] }] :=
    addMessages_self_append _ _ hnd hfresh
  refine ⟨?_, ?_, ?_⟩
  · have hl' : (m0 :: tl).getLast? = some last := hms ▸ hl
    simp only [sql_worker_node, hdb, hms, hl', hc0, Option.getD_some]
    rw [if_pos hlr]
    simp [hintent, hq, hms, noUpdate]
  · simp [applyUpdate, hmsgs, noUpdate]
  · simp [sql_router, applyUpdate, noUpdate, hmsgs, getLast?_append_single, haw]

/-- Witness for C5: a concrete post-execution state with chart intent
and no stored statement. -/
theorem sql_chart_missing_query_witness :
    sql_worker_node
      { messages := [{ id := "u1", role := .human,
                       content := .str "plot the database data", tool_calls := [] },
                     { id := "t1", role := .tool,
                       content := .str "rows", tool_calls := [] }],
        file_paths := ["shop.db"], active_worker := "sql_worker",
        last_sql_query := none, chart_code_generated := none }
      { id := "a9", role := .ai, content := .str "x", tool_calls := [] }
      "e1"
    = Except.ok { noUpdate with
        messages := some
          ([{ id := "u1", role := .human,
              content := .str "plot the database data", tool_calls := [] },
            { id := "t1", role := .tool,
              content := .str "rows", tool_calls := [] }] ++
           [{ id := "e1", role := .ai, content := .str sqlChartErrText,
              tool_calls := [] }]) } :=
  (sql_chart_missing_query
    { messages := [{ id := "u1", role := .human,
                     content := .str "plot the database data", tool_calls := [] },
                   { id := "t1", role := .tool,
                     content := .str "rows", tool_calls := [] }],
      file_paths := ["shop.db"], active_worker := "sql_worker",
      last_sql_query := none, chart_code_generated := none }
    { id := "a9", role := .ai, content := .str "x", tool_calls := [] }
    "e1"
    { id := "u1", role := .human,
      content := .str "plot the database data", tool_calls := [] }
    [{ id := "t1", role := .tool, content := .str "rows", tool_calls := [] }]
    { id := "t1", role := .tool, content := .str "rows", tool_calls := [] }
    "plot the database data" "shop.db"
    rfl rfl (by decide) rfl rfl rfl rfl (by decide) (by decide) rfl).1

/-! ## Shape lemmas: the message channel of every node's patch -/

theorem supervisor_messages_none (s : AgentState) :
    (supervisor_node s).messages = none := by
  unfold supervisor_node
  split
  · rfl
  · split
    · rfl
    · dsimp only
      split
      · rfl
      · split <;> rfl

theorem csv_ok_messages {s : AgentState} {resp : Message} {u : Update}
    (h : csv_worker_node s resp = .ok u) :
    ∃ r', u.messages = some [r'] ∧ r'.id = resp.id := by
  unfold csv_worker_node at h
  all_goals try dsimp only at h
  all_goals try split at h
  all_goals try split at h
  all_goals try split at h
  all_goals try split at h
  all_goals try exact Except.noConfusion h
  all_goals (injection h with h; subst h)
  all_goals refine ⟨_, rfl, ?_⟩
  all_goals try rfl
  all_goals split
  all_goals try rfl

theorem sql_ok_messages {s : AgentState} {resp : Message} {fid : String}
    {u : Update} (h : sql_worker_node s resp fid = .ok u) :
    u.messages = some [resp] ∨ u.messages = some s.messages ∨
      ∃ e : Message, u.messages = some (s.messages ++ [e]) ∧ e.id = fid := by
  unfold sql_worker_node at h
  all_goals try dsimp only at h
  all_goals try split at h
  all_goals try split at h
  all_goals try split at h
  all_goals try split at h
  all_goals try split at h
  all_goals try split at h
  all_goals try split at h
  all_goals try exact Except.noConfusion h
  all_goals (injection h with h; subst h)
  all_goals first
    | exact Or.inl rfl
    | exact Or.inr (Or.inl rfl)
    | exact Or.inr (Or.inr ⟨_, rfl, rfl⟩)

theorem chart_ok_messages {s : AgentState} {resp : Message} {u : Update}
    (h : db_chart_worker_node s resp = .ok u) :
    u.messages = some [resp] := by
  unfold db_chart_worker_node at h
  all_goals try dsimp only at h
  all_goals try split at h
  all_goals try split at h
  all_goals try split at h
  all_goals try split at h
  all_goals try split at h
  all_goals try exact Except.noConfusion h
  all_goals (injection h with h; subst h)
  all_goals rfl

theorem sql_tools_ok_messages {s : AgentState} {tmsg : Message} {u : Update}
    (h : call_sql_tools s tmsg = .ok u) : u.messages = some [tmsg] := by
  unfold call_sql_tools at h
  split at h
  · exact Except.noConfusion h
  · injection h with h
    subst h
    rfl

/-- Appending a message with a new identifier keeps identifiers
duplicate-free. -/
theorem nodup_ids_append_fresh {l : List Message} {e : Message}
    (hnd : (l.map Message.id).Nodup) (hf : ∀ m ∈ l, m.id ≠ e.id) :
    ((l ++ [e]).map Message.id).Nodup := by
  rw [List.map_append]
  refine List.Nodup.append hnd (by simp) ?_
  intro a ha hb
  simp only [List.map_cons, List.map_nil, List.mem_singleton] at hb
  obtain ⟨m, hm, rfl⟩ := List.mem_map.mp ha
  exact hf m hm hb

/-- Every router or worker step only appends: the previous history is a
prefix of the new one, and identifiers stay duplicate-free. -/
theorem step_appends {s s' : AgentState} (hst : Step s s')
    (hnd : (s.messages.map Message.id).Nodup) :
    s.messages <+: s'.messages ∧ (s'.messages.map Message.id).Nodup := by
  have single (r' : Message) (hfr : ∀ m ∈ s.messages, m.id ≠ r'.id) :
      addMessages s.messages [r'] = s.messages ++ [r'] := by
    apply addMessages_fresh
    intro r hr m hm'
    simp only [List.mem_singleton] at hr
    subst hr
    exact hfr m hm'
  cases hst with
  | supervisor =>
    have hm : (supervisor_node s).messages = none := supervisor_messages_none s
    constructor
    · simp [applyUpdate, hm]
    · simpa [applyUpdate, hm] using hnd
  | csv resp u hf hok =>
    obtain ⟨r', hm, hid⟩ := csv_ok_messages hok
    have hfr : ∀ m ∈ s.messages, m.id ≠ r'.id := by rw [hid]; exact hf
    constructor
    · simp only [applyUpdate, hm, single r' hfr]
      exact List.prefix_append _ _
    · simp only [applyUpdate, hm, single r' hfr]
      exact nodup_ids_append_fresh hnd hfr
  | sql resp fid u hf hff hok =>
    rcases sql_ok_messages hok with hm | hm | ⟨e, hm, hid⟩
    · constructor
      · simp only [applyUpdate, hm, single resp hf]
        exact List.prefix_append _ _
      · simp only [applyUpdate, hm, single resp hf]
        exact nodup_ids_append_fresh hnd hf
    · have hself : addMessages s.messages s.messages = s.messages :=
        addMessages_self _ hnd
      constructor
      · simp [applyUpdate, hm, hself]
      · simpa [applyUpdate, hm, hself] using hnd
    · have hfr : ∀ m ∈ s.messages, m.id ≠ e.id := by rw [hid]; exact hff
      have happ : addMessages s.messages (s.messages ++ [e]) = s.messages ++ [e] :=
        addMessages_self_append _ _ hnd hfr
      constructor
      · simp only [applyUpdate, hm, happ]
        exact List.prefix_append _ _
      · simp only [applyUpdate, hm, happ]
        exact nodup_ids_append_fresh hnd hfr
  | chart resp u hf hok =>
    have hm := chart_ok_messages hok
    constructor
    · simp only [applyUpdate, hm, single resp hf]
      exact List.prefix_append _ _
    · simp only [applyUpdate, hm, single resp hf]
      exact nodup_ids_append_fresh hnd hf
  | tools tmsg hf =>
    constructor
    · simp only [applyUpdate, tool_node_update, noUpdate, single tmsg hf]
      exact List.prefix_append _ _
    · simp only [applyUpdate, tool_node_update, noUpdate, single tmsg hf]
      exact nodup_ids_append_fresh hnd hf
  | sqlTools tmsg u hf hok =>
    have hm := sql_tools_ok_messages hok
    constructor
    · simp only [applyUpdate, hm, single tmsg hf]
      exact List.prefix_append _ _
    · simp only [applyUpdate, hm, single tmsg hf]
      exact nodup_ids_append_fresh hnd hf

/-- C7: first-message invariant. In every state reachable within one run
the first history entry is the originating user message, text unchanged;
and every router or worker step only appends to the history (the old
history is a prefix of the new one), so the first message is never
mutated or removed. -/
theorem first_message_invariant :
    (∀ (prompt uid : String) (files : List String) (s : AgentState),
      Reachable (initialState prompt uid files) s →
      s.messages.head? = some { id := uid, role := .human,
                                content := .str prompt, tool_calls := [] })
    ∧ (∀ s s' : AgentState, (s.messages.map Message.id).Nodup → Step s s' →
        s.messages <+: s'.messages) := by
  constructor
  · intro prompt uid files s hr
    have key : s.messages.head? = some { id := uid, role := .human,
                                         content := .str prompt, tool_calls := [] }
        ∧ (s.messages.map Message.id).Nodup := by
      induction hr with
      | refl => exact ⟨rfl, by simp [initialState]⟩
      | @step s1 s2 hr' hst ih =>
        obtain ⟨hh, hnd⟩ := ih
        obtain ⟨hpre, hnd'⟩ := step_appends hst hnd
        refine ⟨?_, hnd'⟩
        obtain ⟨t, ht⟩ := hpre
        rw [← ht]
        cases hcase : s1.messages with
        | nil => rw [hcase] at hh; cases hh
        | cons a l => rw [hcase] at hh; simpa using hh
    exact key.1
  · intro s s' hnd hst
    exact (step_appends hst hnd).1

/-- Witness for C7: the initial state itself is reachable and carries the
user message first; a concrete supervisor step only appends. -/
theorem first_message_invariant_witness :
    (initialState "hi" "u1" ["a.csv"]).messages.head?
      = some { id := "u1", role := .human, content := .str "hi",
               tool_calls := [] }
    ∧ (initialState "hi" "u1" ["a.csv"]).messages <+:
        (applyUpdate (initialState "hi" "u1" ["a.csv"])
          (supervisor_node (initialState "hi" "u1" ["a.csv"]))).messages :=
  ⟨first_message_invariant.1 "hi" "u1" ["a.csv"] _ Reachable.refl,
   first_message_invariant.2 _ _ (by decide)
     (Step.supervisor (initialState "hi" "u1" ["a.csv"]))⟩

/-! ## Step-limit lemmas (C8) -/

theorem getLast?_cons_isSome {α : Type} (a : α) (t : List α) :
    ∃ x, (a :: t).getLast? = some x := by
  induction t generalizing a with
  | nil => exact ⟨a, rfl⟩
  | cons b t' ih =>
    rw [List.getLast?_cons_cons]
    exact ih b

theorem freshMsgId_fresh (ms : List Message) :
    ∀ m ∈ ms, m.id ≠ freshMsgId ms := by
  have hlen : ∀ m ∈ ms, m.id.length ≤
      (ms.foldr (fun m acc => m.id ++ acc) "").length := by
    induction ms with
    | nil => intro m hm; cases hm
    | cons a t ih =>
      intro m hm
      rcases List.mem_cons.mp hm with rfl | hmt
      · simp [String.length_append]
      · have := ih m hmt
        simp only [List.foldr_cons, String.length_append]
        omega
  intro m hm he
  have h1 : m.id.length = (freshMsgId ms).length := by rw [he]
  have h2 : (freshMsgId ms).length =
      (ms.foldr (fun m acc => m.id ++ acc) "").length + 1 := by
    simp [freshMsgId, String.length_append]
    decide
  have := hlen m hm
  omega

theorem runLoop_count_le (f1 f2 : AgentState → Message)
    (f3 : AgentState → String) :
    ∀ (n : Nat) (g : GNode) (s : AgentState),
      (runLoop f1 f2 f3 n g s).2 ≤ n := by
  intro n
  induction n with
  | zero => intro g s; exact Nat.le_refl 0
  | succ n ih =>
    intro g s
    unfold runLoop
    split
    · simp
    · dsimp only
      split
      · simp
      · simp
      · dsimp only
        exact Nat.succ_le_succ (ih _ _)

theorem csv_always_ok (s : AgentState)
    (h1 : contentsAllStr s.messages = true) (h2 : s.messages ≠ []) :
    ∃ r', csv_worker_node s (alwaysToolCallMsg s)
        = .ok { noUpdate with messages := some [r'] }
      ∧ r'.role = .ai
      ∧ r'.tool_calls = (alwaysToolCallMsg s).tool_calls
      ∧ r'.id = freshMsgId s.messages
      ∧ strContent r'.content = true := by
  obtain ⟨last, hl⟩ : ∃ last, s.messages.getLast? = some last := by
    cases hms : s.messages with
    | nil => exact absurd hms h2
    | cons a t =>
      obtain ⟨x, hx⟩ := getLast?_cons_isSome a t
      exact ⟨x, hx⟩
  unfold csv_worker_node
  rw [hl]
  dsimp only
  by_cases hrole : last.role = .tool
  · rw [if_pos hrole]
    have hmem : last ∈ s.messages := by
      obtain ⟨hne, heq⟩ := List.mem_getLast?_eq_getLast (Option.mem_def.mpr hl)
      rw [heq]
      exact List.getLast_mem hne
    have hlstr : strContent last.content = true :=
      List.all_eq_true.mp h1 last hmem
    cases hc : last.content with
    | parts _ => rw [hc] at hlstr; exact absurd hlstr (by simp [strContent])
    | str c =>
      dsimp only
      refine ⟨_, rfl, ?_, ?_, ?_, ?_⟩ <;>
        · split
          · split <;> rfl
          · rfl
  · rw [if_neg hrole]
    refine ⟨alwaysToolCallMsg s, ?_, rfl, rfl, rfl, rfl⟩
    simp [alwaysToolCallMsg]

theorem runLoop_toolloop_exhausts :
    ∀ (n : Nat) (s : AgentState),
      contentsAllStr s.messages = true → s.messages ≠ [] →
      ((runLoop alwaysToolCallMsg toolResultMsg (fun _ => "fid")
          n GNode.csv_worker s).1
        = Except.error "GraphRecursionError: recursion limit reached"
      ∧ (runLoop alwaysToolCallMsg toolResultMsg (fun _ => "fid")
          n GNode.csv_tools s).1
        = Except.error "GraphRecursionError: recursion limit reached") := by
  intro n
  induction n with
  | zero => intro s _ _; exact ⟨rfl, rfl⟩
  | succ n ih =>
    intro s h1 h2
    have hfreshA : ∀ m ∈ s.messages, m.id ≠ freshMsgId s.messages :=
      freshMsgId_fresh s.messages
    constructor
    · obtain ⟨r', hok, hrole, hcalls, hid, hstr⟩ := csv_always_ok s h1 h2
      have hfresh : ∀ r ∈ [r'], ∀ m ∈ s.messages, m.id ≠ r.id := by
        intro r hr m hm
        simp only [List.mem_singleton] at hr
        subst hr
        rw [hid]
        exact hfreshA m hm
      have hadd : addMessages s.messages [r'] = s.messages ++ [r'] :=
        addMessages_fresh _ _ hfresh
      unfold runLoop
      dsimp only
      rw [show execNode alwaysToolCallMsg toolResultMsg (fun _ => "fid")
            GNode.csv_worker s = csv_worker_node s (alwaysToolCallMsg s) from rfl,
          hok]
      dsimp only
      have hmsgs : (applyUpdate s { noUpdate with messages := some [r'] }).messages
          = s.messages ++ [r'] := by
        simp [applyUpdate, hadd]
      have hroute : routeFrom GNode.csv_worker
          (applyUpdate s { noUpdate with messages := some [r'] })
          = Except.ok (some GNode.csv_tools) := by
        simp only [routeFrom, hmsgs, getLast?_append_single]
        have : (r'.role = MsgRole.ai && !r'.tool_calls.isEmpty) = true := by
          rw [hcalls]
          simp [hrole, alwaysToolCallMsg]
        simp [this]
      rw [hroute]
      dsimp only
      have h1' : contentsAllStr (applyUpdate s
          { noUpdate with messages := some [r'] }).messages = true := by
        rw [hmsgs]
        unfold contentsAllStr at h1 ⊢
        rw [List.all_append, h1]
        simp [hstr]
      have h2' : (applyUpdate s { noUpdate with messages := some [r'] }).messages ≠ [] := by
        rw [hmsgs]; simp
      exact (ih _ h1' h2').2
    · have hfresh : ∀ r ∈ [toolResultMsg s], ∀ m ∈ s.messages, m.id ≠ r.id := by
        intro r hr m hm
        simp only [List.mem_singleton] at hr
        subst hr
        exact hfreshA m hm
      have hadd : addMessages s.messages [toolResultMsg s]
          = s.messages ++ [toolResultMsg s] := addMessages_fresh _ _ hfresh
      unfold runLoop
      dsimp only
      rw [show execNode alwaysToolCallMsg toolResultMsg (fun _ => "fid")
            GNode.csv_tools s = Except.ok (tool_node_update (toolResultMsg s)) from rfl]
      dsimp only
      rw [show routeFrom GNode.csv_tools
            (applyUpdate s (tool_node_update (toolResultMsg s)))
            = Except.ok (some GNode.csv_worker) from rfl]
      dsimp only
      have hmsgs : (applyUpdate s (tool_node_update (toolResultMsg s))).messages
          = s.messages ++ [toolResultMsg s] := by
        simp [applyUpdate, tool_node_update, noUpdate, hadd]
      have h1' : contentsAllStr (applyUpdate s
          (tool_node_update (toolResultMsg s))).messages = true := by
        rw [hmsgs]
        unfold contentsAllStr at h1 ⊢
        rw [List.all_append, h1]
        simp [toolResultMsg, strContent]
      have h2' : (applyUpdate s (tool_node_update (toolResultMsg s))).messages ≠ [] := by
        rw [hmsgs]; simp
      exact (ih _ h1' h2').1

/-- C8: run-level exhaustion. The executor's node-visit count never
exceeds the step budget (the run's `recursion_limit` of 100); and with a
model oracle that always requests another tool call, a worker branch
never reaches the graph's end: the run terminates with the fatal
recursion-limit error for every budget, instead of looping. -/
theorem run_step_limit :
    (∀ (f1 f2 : AgentState → Message) (f3 : AgentState → String)
       (g : GNode) (s : AgentState),
      (runLoop f1 f2 f3 recursion_limit g s).2 ≤ recursion_limit)
    ∧ (∀ (n : Nat) (s : AgentState),
        contentsAllStr s.messages = true → s.messages ≠ [] →
        (runLoop alwaysToolCallMsg toolResultMsg (fun _ => "fid")
            n GNode.csv_worker s).1
          = Except.error "GraphRecursionError: recursion limit reached") :=
  ⟨fun f1 f2 f3 g s => runLoop_count_le f1 f2 f3 recursion_limit g s,
   fun n s h1 h2 => (runLoop_toolloop_exhausts n s h1 h2).1⟩

/-- Witness for C8: a concrete initial state; a budget of two steps is
exhausted by a worker that always requests a tool call. -/
theorem run_step_limit_witness :
    (runLoop alwaysToolCallMsg toolResultMsg (fun _ => "fid")
        recursion_limit GNode.supervisor (initialState "hi" "u" ["a.csv"])).2
      ≤ recursion_limit
    ∧ (runLoop alwaysToolCallMsg toolResultMsg (fun _ => "fid")
        2 GNode.csv_worker (initialState "hi" "u" ["a.csv"])).1
      = Except.error "GraphRecursionError: recursion limit reached" :=
  ⟨run_step_limit.1 _ _ _ _ _,
   run_step_limit.2 2 _ (by decide) (by decide)⟩

/-! ## Chart-path extraction lemmas (C6) -/

theorem ciStarts_iff {pat l : List Char} :
    ciStarts pat l = true ↔
      pat.length ≤ l.length ∧
        (l.take pat.length).map Char.toLower = pat.map Char.toLower := by
  simp [ciStarts]

theorem ciStarts_self_append (pat r : List Char) :
    ciStarts pat (pat ++ r) = true := by
  rw [ciStarts_iff]
  constructor
  · simp
  · rw [List.take_left]

theorem ciStarts_head {p : Char} {ps : List Char} {c : Char} {cs : List Char}
    (h : ciStarts (p :: ps) (c :: cs) = true) :
    Char.toLower c = Char.toLower p := by
  obtain ⟨_, heq⟩ := ciStarts_iff.mp h
  simpa using congrArg (fun l => l.head?) heq

theorem ciStarts_within {pat s m : List Char}
    (hlen : pat.length ≤ s.length)
    (h : ciStarts pat (s ++ m) = true) : ciStarts pat s = true := by
  obtain ⟨_, heq⟩ := ciStarts_iff.mp h
  rw [ciStarts_iff]
  refine ⟨hlen, ?_⟩
  rw [List.take_append_eq_append_take, Nat.sub_eq_zero_of_le hlen,
    List.take_zero, List.append_nil] at heq
  exact heq

theorem occursCI_iff {pat l : List Char} :
    occursCI pat l = true ↔ ∃ t, t <:+ l ∧ ciStarts pat t = true := by
  unfold occursCI
  rw [List.any_eq_true]
  constructor
  · rintro ⟨t, ht, hc⟩
    exact ⟨t, (List.mem_tails t l).mp ht, hc⟩
  · rintro ⟨t, ht, hc⟩
    exact ⟨t, (List.mem_tails t l).mpr ht, hc⟩

theorem occursCI_false_ciStarts {pat l t : List Char}
    (h : occursCI pat l = false) (ht : t <:+ l) : ciStarts pat t = false := by
  cases hc : ciStarts pat t with
  | false => rfl
  | true =>
    have : occursCI pat l = true := occursCI_iff.mpr ⟨t, ht, hc⟩
    rw [this] at h
    cases h

theorem scanFirst_cons (f : List Char → Option (List Char)) (c : Char)
    (cs : List Char) :
    scanFirst f (c :: cs) =
      (match f (c :: cs) with
       | some g => some g
       | none => scanFirst f cs) := rfl

theorem scanFirst_append_none (f : List Char → Option (List Char))
    (pre m : List Char)
    (h : ∀ t, t <:+ pre → t ≠ [] → f (t ++ m) = none) :
    scanFirst f (pre ++ m) = scanFirst f m := by
  induction pre with
  | nil => rfl
  | cons c cs ih =>
    have h0 : f (c :: (cs ++ m)) = none := by
      rw [← List.cons_append]
      exact h (c :: cs) List.suffix_rfl (by simp)
    calc scanFirst f ((c :: cs) ++ m)
        = scanFirst f (cs ++ m) := by
          rw [List.cons_append, scanFirst_cons, h0]
      _ = scanFirst f m :=
          ih (fun t ht hne => h t (ht.trans (List.suffix_cons c cs)) hne)

theorem scanFirst_none (f : List Char → Option (List Char)) (l : List Char)
    (h : ∀ t, t <:+ l → t ≠ [] → f t = none) :
    scanFirst f l = none := by
  induction l with
  | nil => rfl
  | cons c cs ih =>
    have h0 : f (c :: cs) = none := h (c :: cs) List.suffix_rfl (by simp)
    have htail : scanFirst f cs = none :=
      ih (fun t ht hne => h t (ht.trans (List.suffix_cons c cs)) hne)
    rw [scanFirst_cons, h0]
    exact htail

theorem ciStarts_boundary_false (pat : List Char) (mh : Char) (mr : List Char)
    {pre t : List Char}
    (hocc : occursCI pat pre = false)
    (hhead : ∀ i, 1 ≤ i → i < pat.length →
      (pat.map Char.toLower)[i]? ≠ some (Char.toLower mh))
    (ht : t <:+ pre) (hne : t ≠ []) :
    ciStarts pat (t ++ (mh :: mr)) = false := by
  cases hc : ciStarts pat (t ++ (mh :: mr)) with
  | false => rfl
  | true =>
    exfalso
    by_cases hlen : pat.length ≤ t.length
    · have := ciStarts_within hlen hc
      rw [occursCI_false_ciStarts hocc ht] at this
      cases this
    · push_neg at hlen
      have h1 : 1 ≤ t.length := by
        cases t with
        | nil => exact absurd rfl hne
        | cons a b => simp
      obtain ⟨_, heq⟩ := ciStarts_iff.mp hc
      have hidx := congrArg (fun L => L[t.length]?) heq
      simp only [List.getElem?_map] at hidx
      rw [List.getElem?_take_of_lt hlen,
        List.getElem?_append_right (Nat.le_refl t.length),
        Nat.sub_self] at hidx
      simp only [List.getElem?_cons_zero] at hidx
      exact hhead t.length h1 hlen (by simpa using hidx.symm)

theorem lazyDotPngBr_cons (acc : List Char) (c : Char) (cs : List Char) :
    lazyDotPngBr acc (c :: cs) =
      (if acc.length > 0 && ciStarts ".png".toList (c :: cs) &&
          ((c :: cs).drop 4).head? == some ']' then
        some (acc.reverse ++ (c :: cs).take 4)
      else if c == '\n' then none
      else lazyDotPngBr (c :: acc) cs) := rfl

theorem lazyDotPng_cons (acc : List Char) (c : Char) (cs : List Char) :
    lazyDotPng acc (c :: cs) =
      (if acc.length > 0 && ciStarts ".png".toList (c :: cs) then
        some (acc.reverse ++ (c :: cs).take 4)
      else if c == '\n' then none
      else lazyDotPng (c :: acc) cs) := rfl

theorem ciStarts_png_false {c : Char} (cs : List Char)
    (hcd : (Char.toLower c == '.') = false) :
    ciStarts ".png".toList (c :: cs) = false := by
  cases hc : ciStarts ".png".toList (c :: cs) with
  | false => rfl
  | true =>
    have hhd := @ciStarts_head '.' "png".toList c cs hc
    rw [hhd] at hcd
    simp at hcd

theorem lazyDotPngBr_skip (l : List Char) :
    ∀ (acc r : List Char),
      (∀ c ∈ l, (Char.toLower c == '.') = false) →
      (∀ c ∈ l, (c == '\n') = false) →
      lazyDotPngBr acc (l ++ r) = lazyDotPngBr (l.reverse ++ acc) r := by
  induction l with
  | nil => intro acc r _ _; simp
  | cons c t ih =>
    intro acc r h1 h2
    have hci : ciStarts ".png".toList (c :: (t ++ r)) = false :=
      ciStarts_png_false _ (h1 c (by simp))
    have hcn := h2 c (by simp)
    rw [List.cons_append, lazyDotPngBr_cons, hci]
    simp only [Bool.and_false, Bool.false_and, Bool.false_eq_true, if_false,
      hcn]
    rw [ih (c :: acc) r (fun d hd => h1 d (by simp [hd]))
      (fun d hd => h2 d (by simp [hd]))]
    simp

theorem lazyDotPng_skip (l : List Char) :
    ∀ (acc r : List Char),
      (∀ c ∈ l, (Char.toLower c == '.') = false) →
      (∀ c ∈ l, (c == '\n') = false) →
      lazyDotPng acc (l ++ r) = lazyDotPng (l.reverse ++ acc) r := by
  induction l with
  | nil => intro acc r _ _; simp
  | cons c t ih =>
    intro acc r h1 h2
    have hci : ciStarts ".png".toList (c :: (t ++ r)) = false :=
      ciStarts_png_false _ (h1 c (by simp))
    have hcn := h2 c (by simp)
    rw [List.cons_append, lazyDotPng_cons, hci]
    simp only [Bool.and_false, Bool.false_eq_true, if_false, hcn]
    rw [ih (c :: acc) r (fun d hd => h1 d (by simp [hd]))
      (fun d hd => h2 d (by simp [hd]))]
    simp

theorem lazyDotPngBr_hit (acc : List Char) (hacc : acc ≠ []) (suf : List Char) :
    lazyDotPngBr acc (".png".toList ++ (']' :: suf))
      = some (acc.reverse ++ ".png".toList) := by
  have h1 : acc.length > 0 := List.length_pos.mpr hacc
  rw [show ".png".toList ++ (']' :: suf)
      = '.' :: ("png".toList ++ (']' :: suf)) from rfl]
  rw [lazyDotPngBr_cons]
  have h2 : ciStarts ".png".toList ('.' :: ("png".toList ++ (']' :: suf))) = true := by
    have := ciStarts_self_append ".png".toList (']' :: suf)
    simpa using this
  rw [h2]
  simp [h1]

theorem lazyDotPng_hit (acc : List Char) (hacc : acc ≠ []) (suf : List Char) :
    lazyDotPng acc (".png".toList ++ suf)
      = some (acc.reverse ++ ".png".toList) := by
  have h1 : acc.length > 0 := List.length_pos.mpr hacc
  rw [show ".png".toList ++ suf = '.' :: ("png".toList ++ suf) from rfl]
  rw [lazyDotPng_cons]
  have h2 : ciStarts ".png".toList ('.' :: ("png".toList ++ suf)) = true := by
    have := ciStarts_self_append ".png".toList suf
    simpa using this
  rw [h2]
  simp [h1]

theorem countWs_cons (c : Char) (cs : List Char) :
    countWs (c :: cs) = if isWs c then countWs cs + 1 else 0 := rfl

theorem countWs_head_not (l : List Char)
    (h : ∀ c, l.head? = some c → isWs c = false) : countWs l = 0 := by
  cases l with
  | nil => rfl
  | cons c cs =>
    rw [countWs_cons, h c rfl]
    simp

theorem stripChars_eq (l : List Char)
    (h1 : ∀ c, l.head? = some c → isWs c = false)
    (h2 : ∀ c, l.reverse.head? = some c → isWs c = false) :
    stripChars l = l := by
  cases l with
  | nil => rfl
  | cons a t =>
    unfold stripChars
    rw [List.dropWhile_cons, h1 a rfl]
    simp only [Bool.false_eq_true, if_false]
    cases hr : (a :: t).reverse with
    | nil => exact absurd hr (by simp)
    | cons b rt =>
      rw [List.dropWhile_cons, h2 b (by rw [hr]; rfl)]
      simp only [Bool.false_eq_true, if_false]
      rw [← hr, List.reverse_reverse]

theorem takeWhile_eq_self_of_all {p : Char → Bool} {l : List Char}
    (h : ∀ c ∈ l, p c = true) : l.takeWhile p = l := by
  induction l with
  | nil => rfl
  | cons c t ih =>
    rw [List.takeWhile_cons, h c (by simp)]
    simp only [if_true]
    rw [ih (fun d hd => h d (by simp [hd]))]

theorem greedyClassPng_succ (cs : List Char) (m : Nat) :
    greedyClassPng cs (m + 1) =
      (if ciStarts ".png".toList (cs.drop (m + 1)) then
        some (cs.take (m + 1 + 4))
      else greedyClassPng cs m) := rfl

theorem greedyClassPng_at (x : List Char) (hx : x ≠ []) :
    greedyClassPng (x ++ ".png".toList) (x.length + 4)
      = some (x ++ ".png".toList) := by
  have hdrop : ∀ k, (x ++ ".png".toList).drop (x.length + k)
      = ".png".toList.drop k := by
    intro k
    rw [List.drop_append_eq_append_drop]
    simp
  obtain ⟨n, hn⟩ : ∃ n, x.length = n + 1 := by
    cases x with
    | nil => exact absurd rfl hx
    | cons a t => exact ⟨t.length, by simp⟩
  have step4 : greedyClassPng (x ++ ".png".toList) (x.length + 4)
      = greedyClassPng (x ++ ".png".toList) (x.length + 3) := by
    rw [show x.length + 4 = (x.length + 3) + 1 from rfl, greedyClassPng_succ,
      show (x.length + 3) + 1 = x.length + 4 from rfl, hdrop 4]
    rw [if_neg (by decide)]
  have step3 : greedyClassPng (x ++ ".png".toList) (x.length + 3)
      = greedyClassPng (x ++ ".png".toList) (x.length + 2) := by
    rw [show x.length + 3 = (x.length + 2) + 1 from rfl, greedyClassPng_succ,
      show (x.length + 2) + 1 = x.length + 3 from rfl, hdrop 3]
    rw [if_neg (by decide)]
  have step2 : greedyClassPng (x ++ ".png".toList) (x.length + 2)
      = greedyClassPng (x ++ ".png".toList) (x.length + 1) := by
    rw [show x.length + 2 = (x.length + 1) + 1 from rfl, greedyClassPng_succ,
      show (x.length + 1) + 1 = x.length + 2 from rfl, hdrop 2]
    rw [if_neg (by decide)]
  have step1 : greedyClassPng (x ++ ".png".toList) (x.length + 1)
      = greedyClassPng (x ++ ".png".toList) x.length := by
    rw [show x.length + 1 = x.length + 0 + 1 from rfl, greedyClassPng_succ,
      show x.length + 0 + 1 = x.length + 1 from rfl, hdrop 1]
    rw [if_neg (by decide)]
  have step0 : greedyClassPng (x ++ ".png".toList) x.length
      = some (x ++ ".png".toList) := by
    rw [hn, greedyClassPng_succ, ← hn]
    have hd0 : (x ++ ".png".toList).drop x.length = ".png".toList := by
      have h := hdrop 0
      simp only [Nat.add_zero] at h
      rw [h]
      rfl
    rw [hd0, if_pos (by decide)]
    have hlen : (x ++ ".png".toList).length = x.length + 4 := by simp
    rw [← hlen, List.take_length]
  rw [step4, step3, step2, step1, step0]

theorem pathChar_props {c : Char} (h : pathChar c = true) :
    (Char.toLower c == '.') = false ∧ (c == '\n') = false ∧ isWs c = false := by
  unfold pathChar at h
  simp only [Bool.and_eq_true, Bool.not_eq_true'] at h
  exact ⟨h.1.1, h.1.2, h.2⟩

theorem simpleNameChar_props {c : Char} (h : simpleNameChar c = true) :
    innerClassChar c = true ∧ (Char.toLower c == '.') = false
      ∧ (c == '\n') = false ∧ isWs c = false := by
  unfold simpleNameChar at h
  simp only [Bool.and_eq_true, Bool.not_eq_true'] at h
  obtain ⟨h1, h2⟩ := h
  refine ⟨h1, h2, ?_, ?_⟩
  · cases he : (c == '\n') with
    | false => rfl
    | true =>
      have hc : c = '\n' := by simpa using he
      rw [hc] at h1
      exact absurd h1 (by decide)
  · cases hw : isWs c with
    | false => rfl
    | true =>
      have hw' : ((((c = ' ' ∨ c = '\t') ∨ c = '\n') ∨ c = '\r') ∨ c = '\x0b')
          ∨ c = '\x0c' := by
        simpa [isWs] using hw
      rcases hw' with ((((hc|hc)|hc)|hc)|hc)|hc <;>
        (rw [hc] at h1; exact absurd h1 (by decide))

theorem body_no_dot (dir x : List Char) (hdir : dir.all pathChar = true)
    (hxc : x.all simpleNameChar = true) :
    (∀ c ∈ dir ++ "charts/".toList ++ x, (Char.toLower c == '.') = false)
    ∧ (∀ c ∈ dir ++ "charts/".toList ++ x, (c == '\n') = false) := by
  have hd1 : ∀ c ∈ dir, (Char.toLower c == '.') = false := fun c hc =>
    (pathChar_props (List.all_eq_true.mp hdir c hc)).1
  have hd2 : ∀ c ∈ dir, (c == '\n') = false := fun c hc =>
    (pathChar_props (List.all_eq_true.mp hdir c hc)).2.1
  have hx1 : ∀ c ∈ x, (Char.toLower c == '.') = false := fun c hc =>
    (simpleNameChar_props (List.all_eq_true.mp hxc c hc)).2.1
  have hx2 : ∀ c ∈ x, (c == '\n') = false := fun c hc =>
    (simpleNameChar_props (List.all_eq_true.mp hxc c hc)).2.2.1
  have hc1 : ∀ c ∈ "charts/".toList, (Char.toLower c == '.') = false := by decide
  have hc2 : ∀ c ∈ "charts/".toList, (c == '\n') = false := by decide
  constructor <;> intro c hc <;> rcases List.mem_append.mp hc with hc' | hcx
  · rcases List.mem_append.mp hc' with hcd | hcs
    · exact hd1 c hcd
    · exact hc1 c hcs
  · exact hx1 c hcx
  · rcases List.mem_append.mp hc' with hcd | hcs
    · exact hd2 c hcd
    · exact hc2 c hcs
  · exact hx2 c hcx

theorem matchLitCI_some {pat l : List Char} (h : ciStarts pat l = true) :
    matchLitCI pat l = some (l.drop pat.length) := by
  unfold matchLitCI
  rw [h]
  simp

theorem matchLitCI_none {pat l : List Char} (h : ciStarts pat l = false) :
    matchLitCI pat l = none := by
  unfold matchLitCI
  rw [h]
  simp

theorem ciStarts_of_prefix_part {pat a : List Char} (r : List Char)
    (hlen : pat.length ≤ a.length) (h : ciStarts pat a = true) :
    ciStarts pat (a ++ r) = true := by
  rw [ciStarts_iff] at h ⊢
  obtain ⟨_, h2⟩ := h
  refine ⟨by simp; omega, ?_⟩
  rw [List.take_append_eq_append_take, Nat.sub_eq_zero_of_le hlen,
    List.take_zero, List.append_nil]
  exact h2

theorem wsBackStar_one (lazyM : List Char → Option (List Char))
    (cs : List Char) :
    wsBackStar lazyM cs 1 =
      (match lazyM (cs.drop 1) with
       | some g => some g
       | none => lazyM cs) := rfl

theorem wsBackPlus_one (lazyM : List Char → Option (List Char))
    (cs : List Char) :
    wsBackPlus lazyM cs 1 =
      (match lazyM (cs.drop 1) with
       | some g => some g
       | none => none) := rfl

/-- The body list `dir ++ "charts/" ++ x` is never empty. -/
theorem body_ne_nil (dir x : List Char) :
    dir ++ "charts/".toList ++ x ≠ [] := by
  simp

/-- The group the lazy scan extracts at a well-formed marker body. -/
theorem lazyDotPng_body (dir x suf : List Char)
    (hdir : dir.all pathChar = true) (hxc : x.all simpleNameChar = true) :
    lazyDotPng [] ((dir ++ "charts/".toList ++ x) ++ (".png".toList ++ suf))
      = some ((dir ++ "charts/".toList ++ x) ++ ".png".toList) := by
  obtain ⟨hnd, hnn⟩ := body_no_dot dir x hdir hxc
  rw [lazyDotPng_skip _ _ _ hnd hnn, List.append_nil,
    lazyDotPng_hit _ (by simp [body_ne_nil]) suf, List.reverse_reverse]

theorem lazyDotPngBr_body (dir x suf : List Char)
    (hdir : dir.all pathChar = true) (hxc : x.all simpleNameChar = true) :
    lazyDotPngBr [] ((dir ++ "charts/".toList ++ x) ++ (".png".toList ++ (']' :: suf)))
      = some ((dir ++ "charts/".toList ++ x) ++ ".png".toList) := by
  obtain ⟨hnd, hnn⟩ := body_no_dot dir x hdir hxc
  rw [lazyDotPngBr_skip _ _ _ hnd hnn, List.append_nil,
    lazyDotPngBr_hit _ (by simp [body_ne_nil]) suf, List.reverse_reverse]

/-- The head of the marker body is never whitespace. -/
theorem body_countWs_zero (dir x : List Char) (hdir : dir.all pathChar = true)
    (r : List Char) :
    countWs (dir ++ "charts/".toList ++ x ++ r) = 0 := by
  apply countWs_head_not
  intro c hc
  cases dir with
  | nil =>
    simp at hc
    exact hc ▸ (by decide : isWs 'c' = false)
  | cons d dt =>
    have hd : (((d :: dt) ++ "charts/".toList ++ x ++ r)).head? = some d := by
      simp
    rw [hd] at hc
    injection hc with hc
    rw [← hc]
    exact (pathChar_props (List.all_eq_true.mp hdir d (by simp))).2.2

/-- `p1at` at the canonical `saved to: ` marker. -/
theorem p1at_marker (dir x suf : List Char)
    (hdir : dir.all pathChar = true) (hxc : x.all simpleNameChar = true) :
    p1at ("saved to: ".toList ++ (dir ++ "charts/".toList ++ x ++ (".png".toList ++ suf)))
      = some (dir ++ "charts/".toList ++ x ++ ".png".toList) := by
  have hsplit : "saved to: ".toList ++ (dir ++ "charts/".toList ++ x ++ (".png".toList ++ suf))
      = "saved to:".toList ++
        (' ' :: (dir ++ "charts/".toList ++ x ++ (".png".toList ++ suf))) := rfl
  unfold p1at
  rw [hsplit, matchLitCI_some (ciStarts_self_append _ _), List.drop_left]
  have hcw : countWs (' ' :: (dir ++ "charts/".toList ++ x ++ (".png".toList ++ suf))) = 1 := by
    rw [countWs_cons]
    simp only [show isWs ' ' = true from rfl, if_true]
    rw [body_countWs_zero dir x hdir]
  rw [Option.some_bind, hcw, wsBackStar_one]
  have hdrop : (' ' :: (dir ++ "charts/".toList ++ x ++ (".png".toList ++ suf))).drop 1
      = (dir ++ "charts/".toList ++ x) ++ (".png".toList ++ suf) := by
    simp [List.append_assoc]
  rw [hdrop, lazyDotPng_body dir x suf hdir hxc]

/-- `p2at` at the canonical `[Chart saved to …]` marker. -/
theorem p2at_marker (dir x suf : List Char)
    (hdir : dir.all pathChar = true) (hxc : x.all simpleNameChar = true) :
    p2at ("[Chart saved to ".toList ++
        (dir ++ "charts/".toList ++ x ++ (".png".toList ++ (']' :: suf))))
      = some (dir ++ "charts/".toList ++ x ++ ".png".toList) := by
  have hsplit : "[Chart saved to ".toList ++
        (dir ++ "charts/".toList ++ x ++ (".png".toList ++ (']' :: suf)))
      = "[Chart saved to".toList ++
        (' ' :: (dir ++ "charts/".toList ++ x ++ (".png".toList ++ (']' :: suf)))) := rfl
  have hci : ciStarts "[chart saved to".toList
      ("[Chart saved to".toList ++
        (' ' :: (dir ++ "charts/".toList ++ x ++ (".png".toList ++ (']' :: suf))))) = true := by
    apply ciStarts_of_prefix_part
    · decide
    · decide
  unfold p2at
  rw [hsplit, matchLitCI_some hci]
  have hdrop15 : ("[Chart saved to".toList ++
        (' ' :: (dir ++ "charts/".toList ++ x ++ (".png".toList ++ (']' :: suf))))).drop
          ("[chart saved to".toList).length
      = ' ' :: (dir ++ "charts/".toList ++ x ++ (".png".toList ++ (']' :: suf))) := by
    rw [show ("[chart saved to".toList).length = ("[Chart saved to".toList).length from rfl,
      List.drop_left]
  rw [hdrop15]
  have hcw : countWs (' ' :: (dir ++ "charts/".toList ++ x ++ (".png".toList ++ (']' :: suf)))) = 1 := by
    rw [countWs_cons]
    simp only [show isWs ' ' = true from rfl, if_true]
    rw [body_countWs_zero dir x hdir]
  rw [Option.some_bind, hcw, wsBackPlus_one]
  have hdrop : (' ' :: (dir ++ "charts/".toList ++ x ++ (".png".toList ++ (']' :: suf)))).drop 1
      = (dir ++ "charts/".toList ++ x) ++ (".png".toList ++ (']' :: suf)) := by
    simp [List.append_assoc]
  rw [hdrop, lazyDotPngBr_body dir x suf hdir hxc]

/-- The post-match body applied to a well-formed group: strip is the
identity, the `charts` mention is found, and the inner pattern
re-extracts exactly `charts/<x>.png`. -/
theorem afterMatch_group (dir x : List Char)
    (hdir : dir.all pathChar = true)
    (hdc : occursCI "charts".toList dir = false)
    (hx : x ≠ []) (hxc : x.all simpleNameChar = true) :
    afterMatch (dir ++ "charts/".toList ++ x ++ ".png".toList)
      = String.mk ("charts/".toList ++ x ++ ".png".toList) := by
  have hstrip : stripChars (dir ++ "charts/".toList ++ x ++ ".png".toList)
      = dir ++ "charts/".toList ++ x ++ ".png".toList := by
    apply stripChars_eq
    · intro c hc
      cases dir with
      | nil =>
        simp at hc
        exact hc ▸ (by decide : isWs 'c' = false)
      | cons d dt =>
        have hd : ((d :: dt) ++ "charts/".toList ++ x ++ ".png".toList).head?
            = some d := by simp
        rw [hd] at hc
        injection hc with hc
        exact hc ▸ (pathChar_props (List.all_eq_true.mp hdir d (by simp))).2.2
    · intro c hc
      have hrev : (dir ++ "charts/".toList ++ x ++ ".png".toList).reverse.head?
          = some 'g' := by
        rw [List.reverse_append,
          show (".png".toList).reverse = ['g', 'n', 'p', '.'] from by decide]
        rfl
      rw [hrev] at hc
      injection hc with hc
      exact hc ▸ (by decide : isWs 'g' = false)
  have hocc : occursCI "charts".toList
      (dir ++ "charts/".toList ++ x ++ ".png".toList) = true := by
    apply occursCI_iff.mpr
    refine ⟨"charts/".toList ++ (x ++ ".png".toList), ?_, ?_⟩
    · have ha : dir ++ "charts/".toList ++ x ++ ".png".toList
          = dir ++ ("charts/".toList ++ (x ++ ".png".toList)) := by
        simp [List.append_assoc]
      rw [ha]
      exact List.suffix_append dir _
    · rw [show "charts/".toList ++ (x ++ ".png".toList)
          = "charts".toList ++ ('/' :: (x ++ ".png".toList)) from rfl]
      exact ciStarts_self_append _ _
  have hiM : innerAt ("charts/".toList ++ (x ++ ".png".toList))
      = some (x ++ ".png".toList) := by
    unfold innerAt
    have h6 : ciStarts "charts".toList
        ("charts/".toList ++ (x ++ ".png".toList)) = true := by
      rw [show "charts/".toList ++ (x ++ ".png".toList)
          = "charts".toList ++ ('/' :: (x ++ ".png".toList)) from rfl]
      exact ciStarts_self_append _ _
    rw [matchLitCI_some h6]
    have hdrop6 : ("charts/".toList ++ (x ++ ".png".toList)).drop
        ("charts".toList).length = '/' :: (x ++ ".png".toList) := by
      rw [show "charts/".toList ++ (x ++ ".png".toList)
          = "charts".toList ++ ('/' :: (x ++ ".png".toList)) from rfl,
        List.drop_left]
    rw [hdrop6, Option.some_bind]
    have htw : (x ++ ".png".toList).takeWhile innerClassChar
        = x ++ ".png".toList := by
      apply takeWhile_eq_self_of_all
      intro c hc
      rcases List.mem_append.mp hc with h | h
      · exact (simpleNameChar_props (List.all_eq_true.mp hxc c h)).1
      · have hpn : ".png".toList.all innerClassChar = true := by decide
        exact List.all_eq_true.mp hpn c h
    simp only [htw]
    rw [List.length_append, show (".png".toList).length = 4 from rfl]
    simp only [show (('/' == '/' || '/' == '\\') : Bool) = true from rfl,
      if_true]
    exact greedyClassPng_at x hx
  have hinner : scanFirst innerAt
      (dir ++ "charts/".toList ++ x ++ ".png".toList)
      = some (x ++ ".png".toList) := by
    have hassoc : dir ++ "charts/".toList ++ x ++ ".png".toList
        = dir ++ ("charts/".toList ++ (x ++ ".png".toList)) := by
      simp [List.append_assoc]
    rw [hassoc]
    rw [scanFirst_append_none innerAt dir _ ?skip]
    case skip =>
      intro t ht hne
      unfold innerAt
      rw [show "charts/".toList ++ (x ++ ".png".toList)
          = 'c' :: ("harts/".toList ++ (x ++ ".png".toList)) from rfl,
        matchLitCI_none (ciStarts_boundary_false "charts".toList 'c'
          ("harts/".toList ++ (x ++ ".png".toList)) hdc (by decide) ht hne)]
      rfl
    rw [show "charts/".toList ++ (x ++ ".png".toList)
        = 'c' :: ("harts/".toList ++ (x ++ ".png".toList)) from rfl,
      scanFirst_cons,
      show 'c' :: ("harts/".toList ++ (x ++ ".png".toList))
        = "charts/".toList ++ (x ++ ".png".toList) from rfl,
      hiM]
  unfold afterMatch
  dsimp only
  rw [hstrip, hocc, hinner]
  simp only [if_true]
  show String.mk ("charts/".toList ++ (x ++ ".png".toList))
      = String.mk ("charts/".toList ++ x ++ ".png".toList)
  rw [List.append_assoc]

/-- C6: chart-path extraction. For a text containing a marker of either
form — `[Chart saved to P]` or `saved to: P` — where `P` is a simple
`.png` file name under `charts/` behind an arbitrary dot-free path
prefix, the extraction returns exactly `charts/<x>.png`, independent of
the prefix. The prefix must not itself mention `charts`; the surrounding
text must not contain a competing marker phrase (for the bracket form,
no `saved to:` anywhere and no `[chart saved to` earlier; for the colon
form, no earlier `saved to:`). -/
theorem chart_path_extraction
    (pre dir x suf : List Char)
    (hdir : dir.all pathChar = true)
    (hdc : occursCI "charts".toList dir = false)
    (hx : x ≠ []) (hxc : x.all simpleNameChar = true) :
    (occursCI "saved to:".toList
        (pre ++ ("[Chart saved to ".toList ++
          (dir ++ "charts/".toList ++ x ++ (".png".toList ++ (']' :: suf))))) = false →
      occursCI "[chart saved to".toList pre = false →
      extract_chart_path (String.mk (pre ++ ("[Chart saved to ".toList ++
          (dir ++ "charts/".toList ++ x ++ (".png".toList ++ (']' :: suf))))))
        = some (String.mk ("charts/".toList ++ x ++ ".png".toList)))
    ∧ (occursCI "saved to:".toList pre = false →
      extract_chart_path (String.mk (pre ++ ("saved to: ".toList ++
          (dir ++ "charts/".toList ++ x ++ (".png".toList ++ suf)))))
        = some (String.mk ("charts/".toList ++ x ++ ".png".toList))) := by
  constructor
  · intro hno hpre
    unfold extract_chart_path
    rw [show (String.mk (pre ++ ("[Chart saved to ".toList ++
        (dir ++ "charts/".toList ++ x ++ (".png".toList ++ (']' :: suf)))))).toList
      = pre ++ ("[Chart saved to ".toList ++
        (dir ++ "charts/".toList ++ x ++ (".png".toList ++ (']' :: suf)))) from rfl]
    have h1 : scanFirst p1at (pre ++ ("[Chart saved to ".toList ++
        (dir ++ "charts/".toList ++ x ++ (".png".toList ++ (']' :: suf))))) = none := by
      apply scanFirst_none
      intro t ht hne
      unfold p1at
      rw [matchLitCI_none (occursCI_false_ciStarts hno ht)]
      rfl
    rw [h1]
    have h2 : scanFirst p2at (pre ++ ("[Chart saved to ".toList ++
        (dir ++ "charts/".toList ++ x ++ (".png".toList ++ (']' :: suf)))))
        = some (dir ++ "charts/".toList ++ x ++ ".png".toList) := by
      rw [scanFirst_append_none p2at pre _ ?skip]
      case skip =>
        intro t ht hne
        unfold p2at
        rw [show "[Chart saved to ".toList ++
            (dir ++ "charts/".toList ++ x ++ (".png".toList ++ (']' :: suf)))
          = '[' :: ("Chart saved to ".toList ++
            (dir ++ "charts/".toList ++ x ++ (".png".toList ++ (']' :: suf)))) from rfl,
          matchLitCI_none (ciStarts_boundary_false "[chart saved to".toList '['
            ("Chart saved to ".toList ++
              (dir ++ "charts/".toList ++ x ++ (".png".toList ++ (']' :: suf))))
            hpre (by decide) ht hne)]
        rfl
      rw [show "[Chart saved to ".toList ++
          (dir ++ "charts/".toList ++ x ++ (".png".toList ++ (']' :: suf)))
        = '[' :: ("Chart saved to ".toList ++
          (dir ++ "charts/".toList ++ x ++ (".png".toList ++ (']' :: suf)))) from rfl,
        scanFirst_cons,
        show '[' :: ("Chart saved to ".toList ++
          (dir ++ "charts/".toList ++ x ++ (".png".toList ++ (']' :: suf))))
        = "[Chart saved to ".toList ++
          (dir ++ "charts/".toList ++ x ++ (".png".toList ++ (']' :: suf))) from rfl,
        p2at_marker dir x suf hdir hxc]
    rw [h2]
    dsimp only
    rw [afterMatch_group dir x hdir hdc hx hxc]
  · intro hpre1
    unfold extract_chart_path
    rw [show (String.mk (pre ++ ("saved to: ".toList ++
        (dir ++ "charts/".toList ++ x ++ (".png".toList ++ suf))))).toList
      = pre ++ ("saved to: ".toList ++
        (dir ++ "charts/".toList ++ x ++ (".png".toList ++ suf))) from rfl]
    have h1 : scanFirst p1at (pre ++ ("saved to: ".toList ++
        (dir ++ "charts/".toList ++ x ++ (".png".toList ++ suf))))
        = some (dir ++ "charts/".toList ++ x ++ ".png".toList) := by
      rw [scanFirst_append_none p1at pre _ ?skip]
      case skip =>
        intro t ht hne
        unfold p1at
        rw [show "saved to: ".toList ++
            (dir ++ "charts/".toList ++ x ++ (".png".toList ++ suf))
          = 's' :: ("aved to: ".toList ++
            (dir ++ "charts/".toList ++ x ++ (".png".toList ++ suf))) from rfl,
          matchLitCI_none (ciStarts_boundary_false "saved to:".toList 's'
            ("aved to: ".toList ++
              (dir ++ "charts/".toList ++ x ++ (".png".toList ++ suf)))
            hpre1 (by decide) ht hne)]
        rfl
      rw [show "saved to: ".toList ++
          (dir ++ "charts/".toList ++ x ++ (".png".toList ++ suf))
        = 's' :: ("aved to: ".toList ++
          (dir ++ "charts/".toList ++ x ++ (".png".toList ++ suf))) from rfl,
        scanFirst_cons,
        show 's' :: ("aved to: ".toList ++
          (dir ++ "charts/".toList ++ x ++ (".png".toList ++ suf)))
        = "saved to: ".toList ++
          (dir ++ "charts/".toList ++ x ++ (".png".toList ++ suf)) from rfl,
        p1at_marker dir x suf hdir hxc]
    rw [h1]
    dsimp only
    rw [afterMatch_group dir x hdir hdc hx hxc]

/-- Witness for C6: a concrete tool-output line with an absolute path
prefix `/home/u/project/` normalizes to `charts/x.png`, for both marker
forms. -/
theorem chart_path_extraction_witness :
    extract_chart_path "tool output\n[Chart saved to /home/u/project/charts/x.png]"
      = some "charts/x.png"
    ∧ extract_chart_path "result 42 saved to: /home/u/project/charts/x.png"
      = some "charts/x.png" := by
  constructor
  · have h := (chart_path_extraction "tool output\n".toList
      "/home/u/project/".toList "x".toList []
      (by decide) (by decide) (by decide) (by decide)).1 (by decide) (by decide)
    exact h
  · have h := (chart_path_extraction "result 42 ".toList
      "/home/u/project/".toList "x".toList []
      (by decide) (by decide) (by decide) (by decide)).2 (by decide)
    exact h

end MultiAgent
